import Mathlib

/-!
Shallow embedding of the erasure-coded write path in `xl-v1-createfile.go`
(`writeErasure`, `cleanupCreateFileOps`, `closeAndRemoveWriters`) of the
minio XL backend, together with theorems settling the specification claims.

External effects (disk `CreateFile` / `Write` / `Close` / `DeleteFile`
results, the byte pipe, the Reed-Solomon codec, the SHA-512 hasher and the
hex encoder) are supplied as oracle inputs in an `Env` record; the producer
`writeErasure` is embedded as a pure function from the environment to an
outcome plus an event trace.  Writers are identified by their disk index;
shard bytes are modelled as `List Nat`.
-/

namespace XLWrite

/-- Distinguished error values crossing the module boundary, plus a generic
disk/io error carrying a tag. -/
inductive Err where
  | errFileNotFound
  | errWriteQuorum
  | errReadQuorum
  | errInvalidArgument
  | ioErr (n : Nat)
  deriving DecidableEq, Repr

/-- The sidecar metadata record: a string-keyed map, embedded as an
association list.  `fileMetadata` in the Go source (a `map[string]string`). -/
def fileMetadata := List (String × String)

instance : DecidableEq fileMetadata := by
  unfold fileMetadata; exact inferInstance

/-- Go map assignment `metadata[key] = value`: replace an existing binding or
append a new one. -/
def fileMetadata.set (m : fileMetadata) (key value : String) : fileMetadata :=
  match m with
  | [] => [(key, value)]
  | (k, v) :: rest =>
      if k = key then (k, value) :: rest
      else (k, v) :: fileMetadata.set rest key value

/-- Go map lookup `metadata[key]`. -/
def fileMetadata.get? (m : fileMetadata) (key : String) : Option String :=
  match m with
  | [] => none
  | (k, v) :: rest => if k = key then some v else fileMetadata.get? rest key

/-- Result of `getPartsMetadata` on one disk: either a sidecar record was
read back (with its parsed `file.version` field, absent modelled as `none`),
or the read failed with an error. -/
inductive MetaReadResult where
  | record (fileVersion : Option Nat)
  | err (e : Err)
  deriving DecidableEq, Repr

/-- The error-counting loop of `writeErasure` (lines 72-85): walk the
per-disk errors, count those that are neither nil nor `errFileNotFound`,
and as soon as the count exceeds `readQuorum` fail with the error currently
being processed. -/
def countMetaReadErrs (errs : List (Option Err)) (count readQuorum : Nat) :
    Option Err :=
  match errs with
  | [] => none
  | oe :: rest =>
      match oe with
      | some e =>
          if e ≠ Err.errFileNotFound then
            if count + 1 > readQuorum then some e
            else countMetaReadErrs rest (count + 1) readQuorum
          else countMetaReadErrs rest count readQuorum
      | none => countMetaReadErrs rest count readQuorum

/-- Modelled from the spec: `listFileVersions` is not under `src/`; §4.1
says the scanner parses each returned record's `file.version` field with an
absent field treated as 0, over the disks that returned a record. -/
def listFileVersions (reads : List MetaReadResult) : List Nat :=
  reads.filterMap fun r =>
    match r with
    | MetaReadResult.record v => some (v.getD 0)
    | MetaReadResult.err _ => none

/-- Modelled from the spec: `highestInt` is not under `src/`; §4.1 says the
scanner takes the maximum `file.version` across disks that returned a
record (0 when there are none). -/
def highestInt (versions : List Nat) : Nat :=
  versions.foldl max 0

/-- Per-disk error view of the metadata reads, as `getPartsMetadata` returns
its parallel `errs` slice. -/
def metaErrs (reads : List MetaReadResult) : List (Option Err) :=
  reads.map fun r =>
    match r with
    | MetaReadResult.record _ => none
    | MetaReadResult.err e => some e

/-- The version-scan phase of `writeErasure` (lines 64-92): count the
non-not-found read errors against the read quorum, failing with the tipping
disk error; otherwise return `highestInt` of the versions plus one. -/
def versionScan (reads : List MetaReadResult) (readQuorum : Nat) :
    Except Err Nat :=
  match countMetaReadErrs (metaErrs reads) 0 readQuorum with
  | some e => Except.error e
  | none => Except.ok (highestInt (listFileVersions reads) + 1)

/-- Observable producer events, for the temporal claims.  `lockNS true` is
the shared (read) lock, `lockNS false` the exclusive (write) lock. -/
inductive Event where
  | lockNS (shared : Bool)
  | unlockNS (shared : Bool)
  | metaRead
  | createPart (i : Nat)
  | createMeta (i : Nat)
  | blockRead (k : Nat)
  | shardWrite (k i : Nat)
  | sidecarWrite (i : Nat)
  | closeShard (i : Nat)
  | closeSidecar (i : Nat)
  | cleanupRun
  | deleteFile (i : Nat)
  | closeWithError (e : Err)
  | closePipe
  deriving DecidableEq, Repr

/-- Per-disk outcome of the two staged `CreateFile` calls in the staging
loop (lines 104-152): both succeed, the `part.i` create fails, or the
`part.i` create succeeds and the sidecar create fails. -/
inductive StageOutcome where
  | ok
  | partFail
  | metaFail
  deriving DecidableEq, Repr

/-- The staging arrays of `writeErasure`: `writers`, `metadataWriters` and
`sha512Writers`, all allocated with length `len(storageDisks)` and nil
entries.  A writer is identified by its disk index.  `leakedPart` is a ghost
field recording part writers that were opened but never stored in `writers`
(the local `writer` dropped when the sidecar `CreateFile` fails). -/
structure StagedState where
  writers : List (Option Nat)
  metadataWriters : List (Option Nat)
  sha512Writers : List (Option Nat)
  leakedPart : List Nat
  events : List Event

def initStaged (n : Nat) : StagedState :=
  { writers := List.replicate n none
  , metadataWriters := List.replicate n none
  , sha512Writers := List.replicate n none
  , leakedPart := []
  , events := [] }

inductive StageResult where
  | aborted (st : StagedState) (e : Err)
  | done (st : StagedState)

/-- The staging loop (lines 103-152): for each disk, attempt the `part.i`
create then the sidecar create; on either failure increment
`createFileError` and continue while it stays at most `n - w`, otherwise
abort with `errWriteQuorum`.  Only when both calls succeed are the three
array slots for the disk filled. -/
def stageLoop (outs : List StageOutcome) (index n w cfErr : Nat)
    (st : StagedState) : StageResult :=
  match outs with
  | [] => StageResult.done st
  | o :: rest =>
      match o with
      | StageOutcome.ok =>
          stageLoop rest (index + 1) n w cfErr
            { st with
              writers := st.writers.set index (some index)
              metadataWriters := st.metadataWriters.set index (some index)
              sha512Writers := st.sha512Writers.set index (some index)
              events := st.events ++ [Event.createPart index, Event.createMeta index] }
      | StageOutcome.partFail =>
          let st1 := { st with events := st.events ++ [Event.createPart index] }
          if cfErr + 1 ≤ n - w then stageLoop rest (index + 1) n w (cfErr + 1) st1
          else StageResult.aborted st1 Err.errWriteQuorum
      | StageOutcome.metaFail =>
          let st1 := { st with
            leakedPart := st.leakedPart ++ [index]
            events := st.events ++ [Event.createPart index, Event.createMeta index] }
          if cfErr + 1 ≤ n - w then stageLoop rest (index + 1) n w (cfErr + 1) st1
          else StageResult.aborted st1 Err.errWriteQuorum

/-- Number of disks in the staging outcomes that failed either `CreateFile`
call: the final value of the `createFileError` counter. -/
def failCount (outs : List StageOutcome) : Nat :=
  match outs with
  | [] => 0
  | StageOutcome.ok :: rest => failCount rest
  | StageOutcome.partFail :: rest => failCount rest + 1
  | StageOutcome.metaFail :: rest => failCount rest + 1

/-- One `io.ReadFull(reader, dataBuffer)` result: a full buffer with nil
error, a short read with `io.ErrUnexpectedEOF`, a clean `io.EOF` with no
bytes, or any other error. -/
inductive ReadResult where
  | full (bytes : List Nat)
  | shortEOF (bytes : List Nat)
  | eof
  | readErr (e : Err)
  deriving DecidableEq, Repr

/-- State threaded through the block loop: per-disk bytes written to the
`part.i` writer, per-disk bytes fed to the `sha512Writers` hasher, the
`totalSize` accumulator, and the event trace. -/
structure BlockState where
  written : List (List Nat)
  hashed : List (List Nat)
  totalSize : Nat
  events : List Event

def initBlockState (n : Nat) : BlockState :=
  { written := List.replicate n []
  , hashed := List.replicate n []
  , totalSize := 0
  , events := [] }

/-- The per-block disk loop (lines 206-227): for each non-nil writer, write
shard `index` of the block (`dataBlocks[index]`, supplied by the codec
oracle `split`) to `part.index`, aborting on a write error, then feed the
same bytes to `sha512Writers[index]` when it is non-nil.  The codec calls
`Split` and `Encode` (external; lines 179-204) are modelled as the total
oracle `split`. -/
def writeBlockShards (split : List Nat → Nat → List Nat)
    (shardWriteErr : Nat → Nat → Option Err)
    (ws shs : List (Option Nat)) (k index : Nat) (bytes : List Nat)
    (st : BlockState) : Except (BlockState × Err) BlockState :=
  match ws with
  | [] => Except.ok st
  | none :: rest => writeBlockShards split shardWriteErr rest shs k (index + 1) bytes st
  | some _ :: rest =>
      let encodedData := split bytes index
      match shardWriteErr k index with
      | some e =>
          Except.error ({ st with events := st.events ++ [Event.shardWrite k index] }, e)
      | none =>
          let st1 := { st with
            written := st.written.set index (st.written.getD index [] ++ encodedData)
            events := st.events ++ [Event.shardWrite k index] }
          let st2 :=
            if shs.getD index none ≠ none then
              { st1 with hashed := st1.hashed.set index (st1.hashed.getD index [] ++ encodedData) }
            else st1
          writeBlockShards split shardWriteErr rest shs k (index + 1) bytes st2

inductive LoopResult where
  | aborted (st : BlockState) (e : Err)
  | done (st : BlockState)
  | starved (st : BlockState)

/-- The block loop (lines 154-232): read up to a buffer of bytes; any error
other than `io.ErrUnexpectedEOF` or `io.EOF` aborts with that error; `io.EOF`
breaks out; otherwise when `n > 0` the block is split, encoded and written
to every live disk and `totalSize` grows by `n`.  An exhausted read oracle
leaves the producer blocked on the pipe (`starved`). -/
def blockLoop (split : List Nat → Nat → List Nat)
    (shardWriteErr : Nat → Nat → Option Err)
    (ws shs : List (Option Nat)) (reads : List ReadResult) (k : Nat)
    (st : BlockState) : LoopResult :=
  match reads with
  | [] => LoopResult.starved st
  | r :: rest =>
      let st0 := { st with events := st.events ++ [Event.blockRead k] }
      match r with
      | ReadResult.readErr e => LoopResult.aborted st0 e
      | ReadResult.eof => LoopResult.done st0
      | ReadResult.full bytes =>
          if bytes.length > 0 then
            match writeBlockShards split shardWriteErr ws shs k 0 bytes st0 with
            | Except.error (st1, e) => LoopResult.aborted st1 e
            | Except.ok st1 =>
                blockLoop split shardWriteErr ws shs rest (k + 1)
                  { st1 with totalSize := st1.totalSize + bytes.length }
          else blockLoop split shardWriteErr ws shs rest (k + 1) st0
      | ReadResult.shortEOF bytes =>
          if bytes.length > 0 then
            match writeBlockShards split shardWriteErr ws shs k 0 bytes st0 with
            | Except.error (st1, e) => LoopResult.aborted st1 e
            | Except.ok st1 =>
                blockLoop split shardWriteErr ws shs rest (k + 1)
                  { st1 with totalSize := st1.totalSize + bytes.length }
          else blockLoop split shardWriteErr ws shs rest (k + 1) st0

/-- Erasure block size (line 33): 4 MiB. -/
def erasureBlockSize : Nat := 4 * 1024 * 1024

/-- Construction of the sidecar metadata map (lines 234-249), in source
order.  `file.version` is set only under `len(storageDisks) > len(writers)`,
with `writersLen` the length of the `writers` slice. -/
def buildMetadata (minioVersion : String) (totalSize : Nat)
    (storageDisksLen writersLen : Nat) (higherVersion : Nat)
    (modTimeStr : String) (dataBlocks parityBlocks : Nat) : fileMetadata :=
  let metadata : fileMetadata := []
  let metadata := metadata.set "version" minioVersion
  let metadata := metadata.set "format.major" "1"
  let metadata := metadata.set "format.minor" "0"
  let metadata := metadata.set "format.patch" "0"
  let metadata := metadata.set "file.size" (toString totalSize)
  let metadata :=
    if storageDisksLen > writersLen then
      metadata.set "file.version" (toString higherVersion)
    else metadata
  let metadata := metadata.set "file.modTime" modTimeStr
  let metadata := metadata.set "file.xl.blockSize" (toString erasureBlockSize)
  let metadata := metadata.set "file.xl.dataBlocks" (toString dataBlocks)
  let metadata := metadata.set "file.xl.parityBlocks" (toString parityBlocks)
  metadata

/-- State of the metadata-write loop: the per-disk serialized sidecar
contents, the shared mutable metadata map, and the event trace. -/
structure MetaWriteState where
  sidecars : List (Option fileMetadata)
  metadata : fileMetadata
  events : List Event

def initMetaWrite (n : Nat) (metadata : fileMetadata) : MetaWriteState :=
  { sidecars := List.replicate n none, metadata := metadata, events := [] }

/-- The metadata-write loop (lines 256-278): for each non-nil metadata
writer, first override `file.xl.block512Sum` in the shared map with the
hex-encoded digest of the disk's hasher when `sha512Writers[index]` is
non-nil, then serialize the current map to the disk's sidecar writer; any
write error aborts with that error. -/
def metaWriteLoop (hash512 : List Nat → List Nat) (hexEnc : List Nat → String)
    (metaWriteErr : Nat → Option Err)
    (mws shs : List (Option Nat)) (hashed : List (List Nat)) (index : Nat)
    (st : MetaWriteState) : Except (MetaWriteState × Err) MetaWriteState :=
  match mws with
  | [] => Except.ok st
  | none :: rest => metaWriteLoop hash512 hexEnc metaWriteErr rest shs hashed (index + 1) st
  | some _ :: rest =>
      let st1 :=
        if shs.getD index none ≠ none then
          { st with metadata :=
              st.metadata.set "file.xl.block512Sum" (hexEnc (hash512 (hashed.getD index []))) }
        else st
      match metaWriteErr index with
      | some e => Except.error ({ st1 with events := st1.events ++ [Event.sidecarWrite index] }, e)
      | none =>
          metaWriteLoop hash512 hexEnc metaWriteErr rest shs hashed (index + 1)
            { st1 with
              sidecars := st1.sidecars.set index (some st1.metadata)
              events := st1.events ++ [Event.sidecarWrite index] }

/-- State of the commit loop: disk indices whose shard and sidecar writers
were successfully closed (renamed into place), and the event trace. -/
structure CommitState where
  closedShard : List Nat
  closedMeta : List Nat
  events : List Event

def initCommit : CommitState :=
  { closedShard := [], closedMeta := [], events := [] }

/-- The commit loop (lines 286-319): for each non-nil shard writer close it
(atomic rename), then when the disk's metadata writer is non-nil close that
too; any close error aborts with that error. -/
def commitLoop (closeShardErr closeMetaErr : Nat → Option Err)
    (ws mws : List (Option Nat)) (index : Nat) (st : CommitState) :
    Except (CommitState × Err) CommitState :=
  match ws with
  | [] => Except.ok st
  | none :: rest => commitLoop closeShardErr closeMetaErr rest mws (index + 1) st
  | some _ :: rest =>
      match closeShardErr index with
      | some e => Except.error ({ st with events := st.events ++ [Event.closeShard index] }, e)
      | none =>
          let st1 := { st with
            closedShard := st.closedShard ++ [index]
            events := st.events ++ [Event.closeShard index] }
          match mws.getD index none with
          | none => commitLoop closeShardErr closeMetaErr rest mws (index + 1) st1
          | some _ =>
              match closeMetaErr index with
              | some e =>
                  Except.error ({ st1 with events := st1.events ++ [Event.closeSidecar index] }, e)
              | none =>
                  commitLoop closeShardErr closeMetaErr rest mws (index + 1)
                    { st1 with
                      closedMeta := st1.closedMeta ++ [index]
                      events := st1.events ++ [Event.closeSidecar index] }

/-- Modelled from the spec: `safeCloseAndRemove` is not under `src/`; §4.5
says each non-nil writer is closed and its staged file discarded, while a
nil writer yields only a logged error. -/
def safeCloseAndRemove (w : Option Nat) : Except Unit Nat :=
  match w with
  | none => Except.error ()
  | some wid => Except.ok wid

/-- The `closeAndRemoveWriters` helper (lines 50-56): close-and-remove every
writer, logging (and otherwise ignoring) per-writer errors.  Returns the
ids of the writers actually closed and discarded. -/
def closeAndRemoveWriters (ws : List (Option Nat)) : List Nat :=
  match ws with
  | [] => []
  | w :: rest =>
      match safeCloseAndRemove w with
      | Except.ok wid => wid :: closeAndRemoveWriters rest
      | Except.error _ => closeAndRemoveWriters rest

/-- The `DeleteFile` loop of `cleanupCreateFileOps` (lines 39-46) over the
listed disk indices: every delete is attempted; a failed delete is logged
and the loop continues.  Returns attempted disks, logged errors, events. -/
def deleteAllDisks (deleteErr : Nat → Option Err) (disks : List Nat) :
    List Nat × List (Nat × Err) × List Event :=
  match disks with
  | [] => ([], [], [])
  | i :: rest =>
      let t := deleteAllDisks deleteErr rest
      match deleteErr i with
      | some e => (i :: t.1, (i, e) :: t.2.1, Event.deleteFile i :: t.2.2)
      | none => (i :: t.1, t.2.1, Event.deleteFile i :: t.2.2)

/-- What one invocation of `cleanupCreateFileOps` did. -/
structure CleanupReport where
  closedAndRemoved : List Nat
  deletesAttempted : List Nat
  deleteErrsLogged : List (Nat × Err)
  events : List Event

/-- The `cleanupCreateFileOps` helper (lines 37-47): close-and-remove the
given writers, then attempt `DeleteFile` on every disk of the full disk set
`0..numDisks-1`, logging individual delete errors. -/
def cleanupCreateFileOps (numDisks : Nat) (deleteErr : Nat → Option Err)
    (ws : List (Option Nat)) : CleanupReport :=
  let removed := closeAndRemoveWriters ws
  let t := deleteAllDisks deleteErr (List.range numDisks)
  { closedAndRemoved := removed
  , deletesAttempted := t.1
  , deleteErrsLogged := t.2.1
  , events := Event.cleanupRun :: t.2.2 }

/-- All oracle inputs of one `writeErasure` run: quorums and coding
parameters of the `XL` object, per-disk `getPartsMetadata` results, per-disk
staging `CreateFile` outcomes, the pipe read results, the codec, the
per-call disk error oracles, the hash and hex primitives, and the constant
strings. -/
structure Env where
  writeQuorum : Nat
  readQuorum : Nat
  dataBlocks : Nat
  parityBlocks : Nat
  metaReads : List MetaReadResult
  stageOuts : List StageOutcome
  reads : List ReadResult
  split : List Nat → Nat → List Nat
  shardWriteErr : Nat → Nat → Option Err
  metaWriteErr : Nat → Option Err
  closeShardErr : Nat → Option Err
  closeMetaErr : Nat → Option Err
  deleteErr : Nat → Option Err
  hash512 : List Nat → List Nat
  hexEnc : List Nat → String
  minioVersion : String
  modTimeStr : String

def Env.numDisks (env : Env) : Nat := env.stageOuts.length

/-- Final state of a committed run. -/
structure FinalState where
  written : List (List Nat)
  sidecars : List (Option fileMetadata)
  leakedPart : List Nat
  closedShard : List Nat
  closedMeta : List Nat
  totalSize : Nat

/-- Terminal outcome of the producer: version-scan failure (no cleanup),
abort through `cleanupCreateFileOps` with the originating error signaled to
the pipe reader, a producer still blocked reading the pipe, or a committed
run. -/
inductive Outcome where
  | scanFailed (e : Err)
  | aborted (report : CleanupReport) (e : Err)
  | starved
  | committed (f : FinalState)

structure RunResult where
  outcome : Outcome
  trace : List Event

/-- The composed `writeErasure` producer (lines 60-324): version scan under
the shared lock, staging, block loop, metadata construction and write, and
commit under the exclusive lock; every abort path calls
`cleanupCreateFileOps` on `append(writers, metadataWriters...)` and signals
the originating error via `CloseWithError`. -/
def writeErasure (env : Env) : RunResult :=
  let scanEvents := [Event.lockNS true, Event.metaRead, Event.unlockNS true]
  match versionScan env.metaReads env.readQuorum with
  | Except.error e =>
      { outcome := Outcome.scanFailed e
      , trace := scanEvents ++ [Event.closeWithError e] }
  | Except.ok higherVersion =>
      let n := env.numDisks
      match stageLoop env.stageOuts 0 n env.writeQuorum 0 (initStaged n) with
      | StageResult.aborted st e =>
          let report := cleanupCreateFileOps n env.deleteErr (st.writers ++ st.metadataWriters)
          { outcome := Outcome.aborted report e
          , trace := scanEvents ++ st.events ++ report.events ++ [Event.closeWithError e] }
      | StageResult.done st =>
          match blockLoop env.split env.shardWriteErr st.writers st.sha512Writers
              env.reads 0 (initBlockState n) with
          | LoopResult.starved bst =>
              { outcome := Outcome.starved
              , trace := scanEvents ++ st.events ++ bst.events }
          | LoopResult.aborted bst e =>
              let report := cleanupCreateFileOps n env.deleteErr (st.writers ++ st.metadataWriters)
              { outcome := Outcome.aborted report e
              , trace := scanEvents ++ st.events ++ bst.events ++ report.events ++
                  [Event.closeWithError e] }
          | LoopResult.done bst =>
              let metadata := buildMetadata env.minioVersion bst.totalSize n
                st.writers.length higherVersion env.modTimeStr env.dataBlocks env.parityBlocks
              match metaWriteLoop env.hash512 env.hexEnc env.metaWriteErr st.metadataWriters
                  st.sha512Writers bst.hashed 0 (initMetaWrite n metadata) with
              | Except.error (mst, e) =>
                  let report := cleanupCreateFileOps n env.deleteErr (st.writers ++ st.metadataWriters)
                  { outcome := Outcome.aborted report e
                  , trace := scanEvents ++ st.events ++ bst.events ++ mst.events ++
                      report.events ++ [Event.closeWithError e] }
              | Except.ok mst =>
                  match commitLoop env.closeShardErr env.closeMetaErr st.writers
                      st.metadataWriters 0 initCommit with
                  | Except.error (cst, e) =>
                      let report := cleanupCreateFileOps n env.deleteErr
                        (st.writers ++ st.metadataWriters)
                      { outcome := Outcome.aborted report e
                      , trace := scanEvents ++ st.events ++ bst.events ++ mst.events ++
                          [Event.lockNS false] ++ cst.events ++ report.events ++
                          [Event.closeWithError e, Event.unlockNS false] }
                  | Except.ok cst =>
                      { outcome := Outcome.committed
                          { written := bst.written
                          , sidecars := mst.sidecars
                          , leakedPart := st.leakedPart
                          , closedShard := cst.closedShard
                          , closedMeta := cst.closedMeta
                          , totalSize := bst.totalSize }
                      , trace := scanEvents ++ st.events ++ bst.events ++ mst.events ++
                          [Event.lockNS false] ++ cst.events ++
                          [Event.unlockNS false, Event.closePipe] }

/-- The per-disk errors that the error-counting loop actually counts: those
that are neither nil nor `errFileNotFound`, in disk order. -/
def nonNF (errs : List (Option Err)) : List Err :=
  match errs with
  | [] => []
  | some e :: rest => if e ≠ Err.errFileNotFound then e :: nonNF rest else nonNF rest
  | none :: rest => nonNF rest

/-- Counted errors of a list of metadata-read results. -/
def nonNotFoundErrs (reads : List MetaReadResult) : List Err :=
  nonNF (metaErrs reads)

/-- Total number of input bytes the block loop consumes from the pipe
before terminating: the sum of the lengths of the processed blocks (reads
after the terminating EOF or error contribute nothing). -/
def consumedBytes (reads : List ReadResult) : Nat :=
  match reads with
  | [] => 0
  | ReadResult.full bytes :: rest => bytes.length + consumedBytes rest
  | ReadResult.shortEOF bytes :: rest => bytes.length + consumedBytes rest
  | ReadResult.eof :: _ => 0
  | ReadResult.readErr _ :: _ => 0

/-- First live disk (non-nil metadata writer) whose sidecar serialization
fails, with the error, scanning from `index`. -/
def firstLiveFail (mws : List (Option Nat)) (mErr : Nat → Option Err) (index : Nat) :
    Option (Nat × Err) :=
  match mws with
  | [] => none
  | none :: rest => firstLiveFail rest mErr (index + 1)
  | some _ :: rest =>
      match mErr index with
      | some e => some (index, e)
      | none => firstLiveFail rest mErr (index + 1)

/-- Witness input for `staging_quorum_policy`: four disks, write quorum 3,
two disks fail their `part.i` create. -/
def envC2 : Env :=
  { writeQuorum := 3, readQuorum := 2, dataBlocks := 2, parityBlocks := 2
  , metaReads := [MetaReadResult.err Err.errFileNotFound, MetaReadResult.err Err.errFileNotFound,
      MetaReadResult.err Err.errFileNotFound, MetaReadResult.err Err.errFileNotFound]
  , stageOuts := [StageOutcome.partFail, StageOutcome.partFail, StageOutcome.ok, StageOutcome.ok]
  , reads := [ReadResult.eof]
  , split := fun b _ => b
  , shardWriteErr := fun _ _ => none
  , metaWriteErr := fun _ => none
  , closeShardErr := fun _ => none
  , closeMetaErr := fun _ => none
  , deleteErr := fun _ => none
  , hash512 := fun b => b
  , hexEnc := fun _ => ""
  , minioVersion := "1.0", modTimeStr := "t" }

/-- Witness input for `sidecar_write_failure_aborts`: two disks, write
quorum 1 (so one sidecar failure would be within `N - W`), both disks stage
fine, and disk 0's sidecar write fails. -/
def envC8 : Env :=
  { writeQuorum := 1, readQuorum := 1, dataBlocks := 1, parityBlocks := 1
  , metaReads := [MetaReadResult.err Err.errFileNotFound, MetaReadResult.err Err.errFileNotFound]
  , stageOuts := [StageOutcome.ok, StageOutcome.ok]
  , reads := [ReadResult.eof]
  , split := fun b _ => b
  , shardWriteErr := fun _ _ => none
  , metaWriteErr := fun j => if j = 0 then some (Err.ioErr 3) else none
  , closeShardErr := fun _ => none
  , closeMetaErr := fun _ => none
  , deleteErr := fun _ => none
  , hash512 := fun b => b
  , hexEnc := fun _ => ""
  , minioVersion := "1.0", modTimeStr := "t" }

/-- Projection of a committed outcome, for stating concrete runs. -/
def committedState (r : RunResult) : Option FinalState :=
  match r.outcome with
  | Outcome.committed f => some f
  | _ => none

/-- Failing input for C1 (scenario S2 of the spec): four disks, write
quorum 3, disk 0 fails its `part.i` `CreateFile`, a 2-byte stream. -/
def envC1 : Env :=
  { writeQuorum := 3, readQuorum := 2, dataBlocks := 2, parityBlocks := 2
  , metaReads := [MetaReadResult.err Err.errFileNotFound, MetaReadResult.err Err.errFileNotFound,
      MetaReadResult.err Err.errFileNotFound, MetaReadResult.err Err.errFileNotFound]
  , stageOuts := [StageOutcome.partFail, StageOutcome.ok, StageOutcome.ok, StageOutcome.ok]
  , reads := [ReadResult.shortEOF [1, 2], ReadResult.eof]
  , split := fun b i => b.map (fun x => x + i)
  , shardWriteErr := fun _ _ => none
  , metaWriteErr := fun _ => none
  , closeShardErr := fun _ => none
  , closeMetaErr := fun _ => none
  , deleteErr := fun _ => none
  , hash512 := fun b => b
  , hexEnc := fun b => toString b
  , minioVersion := "1.0", modTimeStr := "t" }

/-- Witness input for C4: two disks, a full block of 3 bytes then a short
read of 1 byte. -/
def envC4 : Env :=
  { writeQuorum := 1, readQuorum := 1, dataBlocks := 1, parityBlocks := 1
  , metaReads := [MetaReadResult.err Err.errFileNotFound, MetaReadResult.err Err.errFileNotFound]
  , stageOuts := [StageOutcome.ok, StageOutcome.ok]
  , reads := [ReadResult.full [1, 2, 3], ReadResult.shortEOF [4], ReadResult.eof]
  , split := fun b _ => b
  , shardWriteErr := fun _ _ => none
  , metaWriteErr := fun _ => none
  , closeShardErr := fun _ => none
  , closeMetaErr := fun _ => none
  , deleteErr := fun _ => none
  , hash512 := fun b => b
  , hexEnc := fun b => toString b
  , minioVersion := "1.0", modTimeStr := "t" }

/-- The committed state of the `envC4` run. -/
def fC4 : FinalState :=
  { written := [[1, 2, 3, 4], [1, 2, 3, 4]]
  , sidecars := [some [("version", "1.0"), ("format.major", "1"), ("format.minor", "0"),
      ("format.patch", "0"), ("file.size", "4"), ("file.modTime", "t"),
      ("file.xl.blockSize", "4194304"), ("file.xl.dataBlocks", "1"),
      ("file.xl.parityBlocks", "1"), ("file.xl.block512Sum", "[1, 2, 3, 4]")],
      some [("version", "1.0"), ("format.major", "1"), ("format.minor", "0"),
      ("format.patch", "0"), ("file.size", "4"), ("file.modTime", "t"),
      ("file.xl.blockSize", "4194304"), ("file.xl.dataBlocks", "1"),
      ("file.xl.parityBlocks", "1"), ("file.xl.block512Sum", "[1, 2, 3, 4]")]]
  , leakedPart := []
  , closedShard := [0, 1]
  , closedMeta := [0, 1]
  , totalSize := 4 }

/-- Witness input for C3: two disks whose shards differ (`split` shifts the
block bytes by the disk index). -/
def envC3 : Env :=
  { writeQuorum := 1, readQuorum := 1, dataBlocks := 1, parityBlocks := 1
  , metaReads := [MetaReadResult.record (some 2), MetaReadResult.err Err.errFileNotFound]
  , stageOuts := [StageOutcome.ok, StageOutcome.ok]
  , reads := [ReadResult.shortEOF [5, 6], ReadResult.eof]
  , split := fun b i => b.map (fun x => x + i)
  , shardWriteErr := fun _ _ => none
  , metaWriteErr := fun _ => none
  , closeShardErr := fun _ => none
  , closeMetaErr := fun _ => none
  , deleteErr := fun _ => none
  , hash512 := fun b => 9 :: b
  , hexEnc := fun b => toString b
  , minioVersion := "1.0", modTimeStr := "t" }

/-- The committed state of the `envC3` run. -/
def fC3 : FinalState :=
  { written := [[5, 6], [6, 7]]
  , sidecars := [some [("version", "1.0"), ("format.major", "1"), ("format.minor", "0"),
      ("format.patch", "0"), ("file.size", "2"), ("file.modTime", "t"),
      ("file.xl.blockSize", "4194304"), ("file.xl.dataBlocks", "1"),
      ("file.xl.parityBlocks", "1"), ("file.xl.block512Sum", "[9, 5, 6]")],
      some [("version", "1.0"), ("format.major", "1"), ("format.minor", "0"),
      ("format.patch", "0"), ("file.size", "2"), ("file.modTime", "t"),
      ("file.xl.blockSize", "4194304"), ("file.xl.dataBlocks", "1"),
      ("file.xl.parityBlocks", "1"), ("file.xl.block512Sum", "[9, 6, 7]")]]
  , leakedPart := []
  , closedShard := [0, 1]
  , closedMeta := [0, 1]
  , totalSize := 2 }

/-- Witness input for C7: disk 1 fails staging (within quorum), disk 0's
sidecar write fails (originating error `ioErr 5`), and disk 1's
`DeleteFile` during cleanup fails (`ioErr 9`). -/
def envC7 : Env :=
  { writeQuorum := 1, readQuorum := 1, dataBlocks := 1, parityBlocks := 1
  , metaReads := [MetaReadResult.err Err.errFileNotFound, MetaReadResult.err Err.errFileNotFound]
  , stageOuts := [StageOutcome.ok, StageOutcome.partFail]
  , reads := [ReadResult.shortEOF [8], ReadResult.eof]
  , split := fun b _ => b
  , shardWriteErr := fun _ _ => none
  , metaWriteErr := fun j => if j = 0 then some (Err.ioErr 5) else none
  , closeShardErr := fun _ => none
  , closeMetaErr := fun _ => none
  , deleteErr := fun j => if j = 1 then some (Err.ioErr 9) else none
  , hash512 := fun b => b
  , hexEnc := fun _ => ""
  , minioVersion := "1.0", modTimeStr := "t" }

/-- The cleanup report of the `envC7` run. -/
def reportC7 : CleanupReport :=
  { closedAndRemoved := [0, 0]
  , deletesAttempted := [0, 1]
  , deleteErrsLogged := [(1, Err.ioErr 9)]
  , events := [Event.cleanupRun, Event.deleteFile 0, Event.deleteFile 1] }

/-- Phase rank of an event in the producer's control flow, used to state
the temporal ordering claims: the trace of every run is sorted by rank. -/
def eventRank (ev : Event) : Nat :=
  match ev with
  | Event.lockNS true => 0
  | Event.metaRead => 1
  | Event.unlockNS true => 2
  | Event.createPart _ => 3
  | Event.createMeta _ => 3
  | Event.blockRead _ => 4
  | Event.shardWrite _ _ => 4
  | Event.sidecarWrite _ => 5
  | Event.lockNS false => 6
  | Event.closeShard _ => 7
  | Event.closeSidecar _ => 7
  | Event.cleanupRun => 8
  | Event.deleteFile _ => 8
  | Event.closeWithError _ => 8
  | Event.unlockNS false => 9
  | Event.closePipe => 9

/-- The staged state carried by either staging result. -/
def StageResult.state : StageResult → StagedState
  | StageResult.aborted st _ => st
  | StageResult.done st => st

/-- The block state carried by any block-loop result. -/
def LoopResult.state : LoopResult → BlockState
  | LoopResult.aborted st _ => st
  | LoopResult.done st => st
  | LoopResult.starved st => st

/-- The state carried by either side of a loop's `Except` result. -/
def exceptState {σ : Type} : Except (σ × Err) σ → σ
  | Except.ok st => st
  | Except.error (st, _) => st

/-- Witness input for C9: a plain committing run on two disks. -/
def envC9 : Env :=
  { writeQuorum := 1, readQuorum := 1, dataBlocks := 1, parityBlocks := 1
  , metaReads := [MetaReadResult.err Err.errFileNotFound, MetaReadResult.err Err.errFileNotFound]
  , stageOuts := [StageOutcome.ok, StageOutcome.ok]
  , reads := [ReadResult.shortEOF [3], ReadResult.eof]
  , split := fun b _ => b
  , shardWriteErr := fun _ _ => none
  , metaWriteErr := fun _ => none
  , closeShardErr := fun _ => none
  , closeMetaErr := fun _ => none
  , deleteErr := fun _ => none
  , hash512 := fun b => b
  , hexEnc := fun _ => ""
  , minioVersion := "1.0", modTimeStr := "t" }

/-- Witness input for C10: three disks, write quorum 2, disk 1's sidecar
`CreateFile` fails after its `part.1` create succeeded; the counter stays
at `N - W = 1` and the run commits on disks 0 and 2. -/
def envC10 : Env :=
  { writeQuorum := 2, readQuorum := 1, dataBlocks := 1, parityBlocks := 2
  , metaReads := [MetaReadResult.err Err.errFileNotFound, MetaReadResult.err Err.errFileNotFound,
      MetaReadResult.err Err.errFileNotFound]
  , stageOuts := [StageOutcome.ok, StageOutcome.metaFail, StageOutcome.ok]
  , reads := [ReadResult.shortEOF [4], ReadResult.eof]
  , split := fun b _ => b
  , shardWriteErr := fun _ _ => none
  , metaWriteErr := fun _ => none
  , closeShardErr := fun _ => none
  , closeMetaErr := fun _ => none
  , deleteErr := fun _ => none
  , hash512 := fun b => b
  , hexEnc := fun _ => ""
  , minioVersion := "1.0", modTimeStr := "t" }

/-! ## Theorems -/

lemma fileMetadata_get_set_same (m : fileMetadata) (k v : String) :
    (m.set k v).get? k = some v := by
  induction m with
  | nil => simp [fileMetadata.set, fileMetadata.get?]
  | cons p rest ih =>
      obtain ⟨k1, v1⟩ := p
      by_cases h : k1 = k
      · simp [fileMetadata.set, fileMetadata.get?, h]
      · simp [fileMetadata.set, fileMetadata.get?, h, ih]

lemma fileMetadata_get_set_other (m : fileMetadata) (k k2 v : String) (h : k ≠ k2) :
    (m.set k v).get? k2 = m.get? k2 := by
  induction m with
  | nil => simp [fileMetadata.set, fileMetadata.get?, h]
  | cons p rest ih =>
      obtain ⟨k1, v1⟩ := p
      by_cases h1 : k1 = k
      · subst h1
        simp [fileMetadata.set, fileMetadata.get?, h]
      · by_cases h2 : k1 = k2
        · simp [fileMetadata.set, fileMetadata.get?, h1, h2, Ne.symm h]
        · simp [fileMetadata.set, fileMetadata.get?, h1, h2, ih]

lemma getD_set_or {α : Type} (l : List (Option α)) (i j : Nat) (x : Option α) :
    (l.set i x).getD j none = l.getD j none ∨
      (i = j ∧ (l.set i x).getD j none = x) := by
  rw [List.getD_eq_getElem?_getD, List.getD_eq_getElem?_getD, List.getElem?_set]
  by_cases h : i = j
  · subst h
    by_cases h2 : i < l.length
    · right
      simp [h2]
    · left
      simp only [h2, if_false, ite_false, if_true, ite_true]
      have : l[i]? = none := by
        rw [List.getElem?_eq_none_iff]
        omega
      simp [this]
  · left
    simp [h]

/-- In the `done` case the staging loop preserves the equality of the three
writer arrays and their lengths. -/
lemma stageLoop_done_inv (outs : List StageOutcome) :
    ∀ index n w c st st1,
      stageLoop outs index n w c st = StageResult.done st1 →
      ((st.writers = st.metadataWriters ∧ st.writers = st.sha512Writers) →
        st1.writers = st1.metadataWriters ∧ st1.writers = st1.sha512Writers) ∧
      st1.writers.length = st.writers.length := by
  induction outs with
  | nil =>
      intro index n w c st st1 h
      cases h
      exact ⟨fun he => he, rfl⟩
  | cons o rest ih =>
      intro index n w c st st1 h
      cases o with
      | ok =>
          simp only [stageLoop] at h
          have hrec := ih (index + 1) n w c _ st1 h
          refine ⟨fun he => hrec.1 ⟨by rw [he.1], by rw [he.2]⟩, ?_⟩
          rw [hrec.2]
          exact List.length_set st.writers index (some index)
      | partFail =>
          simp only [stageLoop] at h
          split at h
          · have hrec := ih (index + 1) n w (c + 1) _ st1 h
            exact hrec
          · cases h
      | metaFail =>
          simp only [stageLoop] at h
          split at h
          · have hrec := ih (index + 1) n w (c + 1) _ st1 h
            exact hrec
          · cases h

/-- Dissection of a committed run into its five successful phases. -/
lemma committed_run (env : Env) (f : FinalState)
    (h : (writeErasure env).outcome = Outcome.committed f) :
    ∃ v st bst mst cst,
      versionScan env.metaReads env.readQuorum = Except.ok v ∧
      stageLoop env.stageOuts 0 env.numDisks env.writeQuorum 0 (initStaged env.numDisks) =
        StageResult.done st ∧
      blockLoop env.split env.shardWriteErr st.writers st.sha512Writers env.reads 0
        (initBlockState env.numDisks) = LoopResult.done bst ∧
      metaWriteLoop env.hash512 env.hexEnc env.metaWriteErr st.metadataWriters
        st.sha512Writers bst.hashed 0
        (initMetaWrite env.numDisks (buildMetadata env.minioVersion bst.totalSize
          env.numDisks st.writers.length v env.modTimeStr env.dataBlocks
          env.parityBlocks)) = Except.ok mst ∧
      commitLoop env.closeShardErr env.closeMetaErr st.writers st.metadataWriters 0
        initCommit = Except.ok cst ∧
      f = { written := bst.written, sidecars := mst.sidecars
          , leakedPart := st.leakedPart, closedShard := cst.closedShard
          , closedMeta := cst.closedMeta, totalSize := bst.totalSize } := by
  cases hscan : versionScan env.metaReads env.readQuorum with
  | error e =>
      simp only [writeErasure, hscan] at h
      exact Outcome.noConfusion h
  | ok v =>
      cases hstage : stageLoop env.stageOuts 0 env.numDisks env.writeQuorum 0
          (initStaged env.numDisks) with
      | aborted st e =>
          simp only [writeErasure, hscan, hstage] at h
          exact Outcome.noConfusion h
      | done st =>
          cases hblock : blockLoop env.split env.shardWriteErr st.writers st.sha512Writers
              env.reads 0 (initBlockState env.numDisks) with
          | starved bst =>
              simp only [writeErasure, hscan, hstage, hblock] at h
              exact Outcome.noConfusion h
          | aborted bst e =>
              simp only [writeErasure, hscan, hstage, hblock] at h
              exact Outcome.noConfusion h
          | done bst =>
              cases hmeta : metaWriteLoop env.hash512 env.hexEnc env.metaWriteErr
                  st.metadataWriters st.sha512Writers bst.hashed 0
                  (initMetaWrite env.numDisks (buildMetadata env.minioVersion bst.totalSize
                    env.numDisks st.writers.length v env.modTimeStr env.dataBlocks
                    env.parityBlocks)) with
              | error p =>
                  obtain ⟨mst1, e⟩ := p
                  simp only [writeErasure, hscan, hstage, hblock, hmeta] at h
                  exact Outcome.noConfusion h
              | ok mst =>
                  cases hcommit : commitLoop env.closeShardErr env.closeMetaErr st.writers
                      st.metadataWriters 0 initCommit with
                  | error p =>
                      obtain ⟨cst1, e⟩ := p
                      simp only [writeErasure, hscan, hstage, hblock, hmeta, hcommit] at h
                      exact Outcome.noConfusion h
                  | ok cst =>
                      simp only [writeErasure, hscan, hstage, hblock, hmeta, hcommit] at h
                      injection h with h
                      exact ⟨v, st, bst, mst, cst, rfl, rfl, hblock, hmeta, hcommit,
                        h.symm⟩

/-! ### Helper notions for the version scan -/


lemma countMetaReadErrs_eq (errs : List (Option Err)) :
    ∀ count R, count ≤ R →
      countMetaReadErrs errs count R =
        if count + (nonNF errs).length ≤ R then none
        else (nonNF errs).get? (R - count) := by
  induction errs with
  | nil =>
      intro count R h
      simp [countMetaReadErrs, nonNF, h]
  | cons oe rest ih =>
      intro count R h
      match oe with
      | none =>
          simp only [countMetaReadErrs, nonNF]
          exact ih count R h
      | some e =>
          by_cases he : e = Err.errFileNotFound
          · simp only [countMetaReadErrs, nonNF, he]
            simp only [ne_eq, not_true_eq_false, if_false, ite_false]
            exact ih count R h
          · simp only [countMetaReadErrs, nonNF, ne_eq, he, not_false_eq_true, if_true,
              ite_true]
            have hlen : (e :: nonNF rest).length = (nonNF rest).length + 1 :=
              List.length_cons e (nonNF rest)
            by_cases hc : count + 1 > R
            · have hcount : count = R := by omega
              have hcond : ¬ (count + (e :: nonNF rest).length ≤ R) := by omega
              rw [if_pos hc, if_neg hcond]
              have hz : R - count = 0 := by omega
              simp [hz]
            · have hle : count + 1 ≤ R := by omega
              rw [if_neg hc, ih (count + 1) R hle]
              have hRc : R - count = (R - (count + 1)) + 1 := by omega
              by_cases hcond : count + 1 + (nonNF rest).length ≤ R
              · rw [if_pos hcond, if_pos (by omega)]
              · rw [if_neg hcond, if_neg (by omega), hRc]
                simp [List.get?]

/-- C5, amended: the scan fails exactly when the number of counted errors
exceeds the read quorum, and the signaled error is the per-disk error whose
processing tipped the count — the `(R+1)`-th counted error — not a
distinguished read-quorum value; otherwise it returns one plus the highest
`file.version` (absent treated as 0), hence at least 1. -/
theorem version_scan_characterization (reads : List MetaReadResult) (R : Nat) :
    ((nonNotFoundErrs reads).length ≤ R →
      versionScan reads R = Except.ok (highestInt (listFileVersions reads) + 1)) ∧
    (R < (nonNotFoundErrs reads).length →
      ∃ e, (nonNotFoundErrs reads).get? R = some e ∧
        versionScan reads R = Except.error e) ∧
    (∀ v, versionScan reads R = Except.ok v → 1 ≤ v) := by
  have hkey := countMetaReadErrs_eq (metaErrs reads) 0 R (Nat.zero_le R)
  simp only [Nat.zero_add, Nat.sub_zero] at hkey
  unfold versionScan nonNotFoundErrs at *
  refine ⟨?_, ?_, ?_⟩
  · intro hle
    rw [hkey, if_pos hle]
  · intro hgt
    have hcond : ¬ ((nonNF (metaErrs reads)).length ≤ R) := by omega
    rw [hkey, if_neg hcond]
    obtain ⟨e, he⟩ : ∃ e, (nonNF (metaErrs reads)).get? R = some e := by
      have hlt : R < (nonNF (metaErrs reads)).length := by omega
      exact ⟨_, List.get?_eq_get hlt⟩
    exact ⟨e, he, by rw [he]⟩
  · intro v hv
    rw [hkey] at hv
    by_cases hcond : (nonNF (metaErrs reads)).length ≤ R
    · rw [if_pos hcond] at hv
      cases hv
      omega
    · rw [if_neg hcond] at hv
      cases hget : (nonNF (metaErrs reads)).get? R <;> rw [hget] at hv
      · cases hv; omega
      · cases hv

/-- Witness for the amended C5 theorem: a fresh key (all disks not-found)
with one disk holding version 5 yields next version 6 with no failure. -/
theorem version_scan_characterization_witness :
    versionScan [MetaReadResult.record (some 5), MetaReadResult.err Err.errFileNotFound] 1 =
      Except.ok 6 :=
  (version_scan_characterization
    [MetaReadResult.record (some 5), MetaReadResult.err Err.errFileNotFound] 1).1 (by decide)

/-- C5 counterexample: with read quorum 0, a single counted disk error makes
the count exceed the quorum, and the scan fails — but with the per-disk
error (`ioErr 7`), not the distinguished read-quorum error the claim names. -/
theorem version_scan_error_is_disk_error :
    versionScan [MetaReadResult.err (Err.ioErr 7)] 0 = Except.error (Err.ioErr 7) ∧
    versionScan [MetaReadResult.err (Err.ioErr 7)] 0 ≠ Except.error Err.errReadQuorum ∧
    0 < (nonNotFoundErrs [MetaReadResult.err (Err.ioErr 7)]).length := by
  refine ⟨rfl, ?_, by decide⟩
  intro h
  cases h

/-! ### Staging quorum (C2) -/

lemma stageLoop_cases (outs : List StageOutcome) :
    ∀ index n w cfErr st, cfErr ≤ n - w →
      ((cfErr + failCount outs ≤ n - w →
        ∃ st1, stageLoop outs index n w cfErr st = StageResult.done st1) ∧
      (n - w < cfErr + failCount outs →
        ∃ st1, stageLoop outs index n w cfErr st =
          StageResult.aborted st1 Err.errWriteQuorum)) := by
  induction outs with
  | nil =>
      intro index n w cfErr st hinv
      refine ⟨fun h => ⟨st, rfl⟩, fun h => ?_⟩
      exfalso
      simp [failCount] at h
      omega
  | cons o rest ih =>
      intro index n w cfErr st hinv
      cases o with
      | ok =>
          simp only [stageLoop, failCount]
          exact ih (index + 1) n w cfErr _ hinv
      | partFail =>
          simp only [stageLoop, failCount]
          by_cases hc : cfErr + 1 ≤ n - w
          · rw [if_pos hc]
            refine ⟨fun h => ?_, fun h => ?_⟩
            · exact (ih _ n w _ _ hc).1 (by omega)
            · exact (ih _ n w _ _ hc).2 (by omega)
          · rw [if_neg hc]
            exact ⟨fun h => absurd h (by omega), fun h => ⟨_, rfl⟩⟩
      | metaFail =>
          simp only [stageLoop, failCount]
          by_cases hc : cfErr + 1 ≤ n - w
          · rw [if_pos hc]
            refine ⟨fun h => ?_, fun h => ?_⟩
            · exact (ih _ n w _ _ hc).1 (by omega)
            · exact (ih _ n w _ _ hc).2 (by omega)
          · rw [if_neg hc]
            exact ⟨fun h => absurd h (by omega), fun h => ⟨_, rfl⟩⟩

/-- C2: the staging loop finishes all disks exactly when the counter of
failed `CreateFile` disks stays at most `N - W`; as soon as it exceeds
`N - W` it aborts with exactly the write-quorum error, and the producer
then runs `cleanupCreateFileOps` on the currently staged writers
(`append(writers, metadataWriters...)`) and signals that error. -/
theorem staging_quorum_policy (env : Env) (v : Nat)
    (hscan : versionScan env.metaReads env.readQuorum = Except.ok v) :
    (match stageLoop env.stageOuts 0 env.numDisks env.writeQuorum 0
        (initStaged env.numDisks) with
      | StageResult.done _ => failCount env.stageOuts ≤ env.numDisks - env.writeQuorum
      | StageResult.aborted _ e =>
          env.numDisks - env.writeQuorum < failCount env.stageOuts ∧
            e = Err.errWriteQuorum) ∧
    (env.numDisks - env.writeQuorum < failCount env.stageOuts →
      ∃ st1, stageLoop env.stageOuts 0 env.numDisks env.writeQuorum 0
          (initStaged env.numDisks) = StageResult.aborted st1 Err.errWriteQuorum ∧
        (writeErasure env).outcome = Outcome.aborted
          (cleanupCreateFileOps env.numDisks env.deleteErr
            (st1.writers ++ st1.metadataWriters))
          Err.errWriteQuorum) := by
  have hpair := stageLoop_cases env.stageOuts 0 env.numDisks env.writeQuorum 0
    (initStaged env.numDisks) (Nat.zero_le _)
  simp only [Nat.zero_add] at hpair
  constructor
  · cases hres : stageLoop env.stageOuts 0 env.numDisks env.writeQuorum 0
        (initStaged env.numDisks) with
    | done st1 =>
        by_contra h
        obtain ⟨st2, habort⟩ := hpair.2 (by omega)
        rw [hres] at habort
        cases habort
    | aborted st1 e =>
        by_cases hle : failCount env.stageOuts ≤ env.numDisks - env.writeQuorum
        · obtain ⟨st2, hdone⟩ := hpair.1 hle
          rw [hres] at hdone
          cases hdone
        · obtain ⟨st2, habort⟩ := hpair.2 (by omega)
          rw [hres] at habort
          cases habort
          exact ⟨by omega, rfl⟩
  · intro h
    obtain ⟨st1, habort⟩ := hpair.2 h
    refine ⟨st1, habort, ?_⟩
    simp only [writeErasure, hscan, habort]


theorem staging_quorum_policy_witness :
    ∃ st1, stageLoop envC2.stageOuts 0 envC2.numDisks envC2.writeQuorum 0
        (initStaged envC2.numDisks) = StageResult.aborted st1 Err.errWriteQuorum ∧
      (writeErasure envC2).outcome = Outcome.aborted
        (cleanupCreateFileOps envC2.numDisks envC2.deleteErr
          (st1.writers ++ st1.metadataWriters))
        Err.errWriteQuorum :=
  (staging_quorum_policy envC2 1 rfl).2 (by decide)

/-! ### Block loop control flow (C6) -/

/-- C6: the block loop reads block-sized units and (i) aborts with the read
error itself on any error other than unexpected-EOF or EOF, (ii) exits
without writing on a clean EOF, and (iii) processes a short read of
`n > 0` bytes as a final block — growing `totalSize` by `n` — after which
the next read's clean EOF exits the loop. -/
theorem block_loop_termination (split : List Nat → Nat → List Nat)
    (shardWriteErr : Nat → Nat → Option Err) (ws shs : List (Option Nat))
    (rest : List ReadResult) (k : Nat) (st : BlockState) (bytes : List Nat) (e : Err) :
    (blockLoop split shardWriteErr ws shs (ReadResult.readErr e :: rest) k st =
      LoopResult.aborted { st with events := st.events ++ [Event.blockRead k] } e) ∧
    (blockLoop split shardWriteErr ws shs (ReadResult.eof :: rest) k st =
      LoopResult.done { st with events := st.events ++ [Event.blockRead k] }) ∧
    (0 < bytes.length →
      ∀ st1, writeBlockShards split shardWriteErr ws shs k 0 bytes
          { st with events := st.events ++ [Event.blockRead k] } = Except.ok st1 →
        blockLoop split shardWriteErr ws shs
            (ReadResult.shortEOF bytes :: ReadResult.eof :: rest) k st =
          LoopResult.done { st1 with
            totalSize := st1.totalSize + bytes.length
            events := st1.events ++ [Event.blockRead (k + 1)] }) := by
  refine ⟨rfl, rfl, ?_⟩
  intro hpos st1 hw
  simp only [blockLoop, gt_iff_lt, hpos, if_true, hw]

theorem block_loop_termination_witness :
    blockLoop (fun b _ => b) (fun _ _ => none) [some 0] [some 0]
        [ReadResult.shortEOF [7], ReadResult.eof] 0 (initBlockState 1) =
      LoopResult.done
        { written := [[7]], hashed := [[7]], totalSize := 1
        , events := [Event.blockRead 0, Event.shardWrite 0 0, Event.blockRead 1] } :=
  (block_loop_termination (fun b _ => b) (fun _ _ => none) [some 0] [some 0]
    [] 0 (initBlockState 1) [7] Err.errWriteQuorum).2.2 (by decide)
    { written := [[7]], hashed := [[7]], totalSize := 0
    , events := [Event.blockRead 0, Event.shardWrite 0 0] } rfl

/-! ### Sidecar write failure aborts (C8) -/


lemma metaWriteLoop_error_of_firstLiveFail (hash512 : List Nat → List Nat)
    (hexEnc : List Nat → String) (mErr : Nat → Option Err) :
    ∀ (mws shs : List (Option Nat)) (hashed : List (List Nat)) (index : Nat)
      (st : MetaWriteState) (i : Nat) (e : Err),
      firstLiveFail mws mErr index = some (i, e) →
      ∃ st1, metaWriteLoop hash512 hexEnc mErr mws shs hashed index st =
        Except.error (st1, e) := by
  intro mws
  induction mws with
  | nil => intro shs hashed index st i e h; cases h
  | cons w rest ih =>
      intro shs hashed index st i e h
      cases w with
      | none =>
          simp only [firstLiveFail] at h
          simp only [metaWriteLoop]
          exact ih shs hashed (index + 1) st i e h
      | some wid =>
          simp only [firstLiveFail] at h
          simp only [metaWriteLoop]
          cases hme : mErr index with
          | some e1 =>
              rw [hme] at h
              cases h
              exact ⟨_, rfl⟩
          | none =>
              rw [hme] at h
              exact ih shs hashed (index + 1) _ i e h

/-- C8: once the run reaches the metadata-write phase, a sidecar
serialization failure on any single live disk aborts the whole transaction
and surfaces that error — there is no quorum allowance in this phase (the
statement needs no bound on how many disks failed). -/
theorem sidecar_write_failure_aborts (env : Env) (v : Nat) (st : StagedState)
    (bst : BlockState) (i : Nat) (e : Err)
    (hscan : versionScan env.metaReads env.readQuorum = Except.ok v)
    (hstage : stageLoop env.stageOuts 0 env.numDisks env.writeQuorum 0
      (initStaged env.numDisks) = StageResult.done st)
    (hblock : blockLoop env.split env.shardWriteErr st.writers st.sha512Writers
      env.reads 0 (initBlockState env.numDisks) = LoopResult.done bst)
    (hfail : firstLiveFail st.metadataWriters env.metaWriteErr 0 = some (i, e)) :
    ∃ report, (writeErasure env).outcome = Outcome.aborted report e := by
  obtain ⟨mst1, hm⟩ := metaWriteLoop_error_of_firstLiveFail env.hash512 env.hexEnc
    env.metaWriteErr st.metadataWriters st.sha512Writers bst.hashed 0
    (initMetaWrite env.numDisks (buildMetadata env.minioVersion bst.totalSize
      env.numDisks st.writers.length v env.modTimeStr env.dataBlocks env.parityBlocks))
    i e hfail
  simp only [writeErasure, hscan, hstage, hblock, hm]
  exact ⟨_, rfl⟩


theorem sidecar_write_failure_aborts_witness :
    ∃ report, (writeErasure envC8).outcome = Outcome.aborted report (Err.ioErr 3) :=
  sidecar_write_failure_aborts envC8 1
    { writers := [some 0, some 1], metadataWriters := [some 0, some 1]
    , sha512Writers := [some 0, some 1], leakedPart := []
    , events := [Event.createPart 0, Event.createMeta 0, Event.createPart 1,
        Event.createMeta 1] }
    { written := [[], []], hashed := [[], []], totalSize := 0
    , events := [Event.blockRead 0] }
    0 (Err.ioErr 3) rfl rfl rfl rfl

/-! ### Sidecar contents of committed runs (C1, C3, C4) -/

lemma buildMetadata_get_version_none (mv : String) (ts sdl wl hv : Nat)
    (mt : String) (db pb : Nat) (h : ¬ sdl > wl) :
    (buildMetadata mv ts sdl wl hv mt db pb).get? "file.version" = none := by
  simp only [buildMetadata, if_neg h]
  simp [fileMetadata.set, fileMetadata.get?]

lemma buildMetadata_get_size (mv : String) (ts sdl wl hv : Nat)
    (mt : String) (db pb : Nat) :
    (buildMetadata mv ts sdl wl hv mt db pb).get? "file.size" =
      some (toString ts) := by
  by_cases h : sdl > wl <;>
    simp only [buildMetadata, if_pos, if_neg, h, ite_true, ite_false] <;>
    simp [fileMetadata.set, fileMetadata.get?]

/-- The metadata-write loop leaves every key other than
`file.xl.block512Sum` at its value in the shared map, in every sidecar it
serializes. -/
lemma metaWriteLoop_get_other (hash512 : List Nat → List Nat)
    (hexEnc : List Nat → String) (mErr : Nat → Option Err) (key : String)
    (hkey : key ≠ "file.xl.block512Sum") (ov : Option String) :
    ∀ (mws shs : List (Option Nat)) (hashed : List (List Nat)) (index : Nat)
      (st st1 : MetaWriteState),
      st.metadata.get? key = ov →
      (∀ j m, st.sidecars.getD j none = some m → m.get? key = ov) →
      metaWriteLoop hash512 hexEnc mErr mws shs hashed index st = Except.ok st1 →
      (∀ j m, st1.sidecars.getD j none = some m → m.get? key = ov) := by
  intro mws
  induction mws with
  | nil =>
      intro shs hashed index st st1 hmd hinv h
      cases h
      exact hinv
  | cons w rest ih =>
      intro shs hashed index st st1 hmd hinv h
      cases w with
      | none =>
          simp only [metaWriteLoop] at h
          exact ih shs hashed (index + 1) st st1 hmd hinv h
      | some wid =>
          simp only [metaWriteLoop] at h
          by_cases hc : shs.getD index none ≠ none
          · simp only [if_pos hc] at h
            cases hme : mErr index with
            | some e =>
                rw [hme] at h
                cases h
            | none =>
                rw [hme] at h
                have hmd1 : (st.metadata.set "file.xl.block512Sum"
                    (hexEnc (hash512 (hashed.getD index [])))).get? key = ov := by
                  rw [fileMetadata_get_set_other _ _ _ _ (Ne.symm hkey)]
                  exact hmd
                refine ih shs hashed (index + 1)
                    { sidecars := st.sidecars.set index
                        (some (st.metadata.set "file.xl.block512Sum"
                          (hexEnc (hash512 (hashed.getD index [])))))
                    , metadata := st.metadata.set "file.xl.block512Sum"
                        (hexEnc (hash512 (hashed.getD index [])))
                    , events := st.events ++ [Event.sidecarWrite index] }
                    st1 hmd1 ?_ h
                intro j m hj
                simp only at hj
                rcases getD_set_or st.sidecars index j
                    (some (st.metadata.set "file.xl.block512Sum"
                      (hexEnc (hash512 (hashed.getD index []))))) with hold | ⟨hij, hnew⟩
                · rw [hold] at hj
                  exact hinv j m hj
                · rw [hnew] at hj
                  cases hj
                  exact hmd1
          · simp only [if_neg hc] at h
            cases hme : mErr index with
            | some e =>
                rw [hme] at h
                cases h
            | none =>
                rw [hme] at h
                refine ih shs hashed (index + 1)
                    { sidecars := st.sidecars.set index (some st.metadata)
                    , metadata := st.metadata
                    , events := st.events ++ [Event.sidecarWrite index] }
                    st1 hmd ?_ h
                intro j m hj
                simp only at hj
                rcases getD_set_or st.sidecars index j (some st.metadata) with
                  hold | ⟨hij, hnew⟩
                · rw [hold] at hj
                  exact hinv j m hj
                · rw [hnew] at hj
                  cases hj
                  exact hmd

/-- On any committed run, no sidecar carries `file.version`: the guard
`len(storageDisks) > len(writers)` at line 241 compares the disk count with
the length of the `writers` slice, which was allocated with exactly that
length. -/
lemma file_version_always_absent (env : Env) (f : FinalState)
    (h : (writeErasure env).outcome = Outcome.committed f) :
    ∀ j m, f.sidecars.getD j none = some m → m.get? "file.version" = none := by
  obtain ⟨v, st, bst, mst, cst, hscan, hstage, hblock, hmeta, hcommit, hf⟩ :=
    committed_run env f h
  have hlen : st.writers.length = env.numDisks := by
    have := (stageLoop_done_inv env.stageOuts 0 env.numDisks env.writeQuorum 0
      (initStaged env.numDisks) st hstage).2
    simpa [initStaged] using this
  have hbase : (buildMetadata env.minioVersion bst.totalSize env.numDisks
      st.writers.length v env.modTimeStr env.dataBlocks
      env.parityBlocks).get? "file.version" = none :=
    buildMetadata_get_version_none _ _ _ _ _ _ _ _ (by omega)
  have hsc := metaWriteLoop_get_other env.hash512 env.hexEnc env.metaWriteErr
    "file.version" (by decide) none st.metadataWriters st.sha512Writers bst.hashed 0
    (initMetaWrite env.numDisks (buildMetadata env.minioVersion bst.totalSize
      env.numDisks st.writers.length v env.modTimeStr env.dataBlocks env.parityBlocks))
    mst hbase (by
      intro j m hj
      simp only [initMetaWrite] at hj
      rw [List.getD_eq_getElem?_getD, List.getElem?_replicate] at hj
      by_cases hc : j < env.numDisks <;> simp [hc] at hj) hmeta
  intro j m hj
  rw [hf] at hj
  exact hsc j m hj

/-- C1 (code bug): on the failing input `envC1` — one of four disks fails
its staged `CreateFile`, the run commits on the remaining three — every
committed sidecar omits `file.version`, although the spec (and the code's
own comment at line 242) requires it to be present when fewer than N disks
staged.  The guard at line 241 is `len(storageDisks) > len(writers)`, and
`writers` was allocated with `make(..., len(storageDisks))`, so the guard
is never true. -/
theorem file_version_omitted_despite_partial_write :
    failCount envC1.stageOuts = 1 ∧
    ((committedState (writeErasure envC1)).map
      (fun f => ((f.sidecars.filterMap id).length,
        (f.sidecars.filterMap id).all
          (fun m => (fileMetadata.get? m "file.version").isNone)))) = some (3, true) :=
  ⟨rfl, rfl⟩

lemma writeBlockShards_ok_totalSize (split : List Nat → Nat → List Nat)
    (swe : Nat → Nat → Option Err) (shs : List (Option Nat)) (k : Nat)
    (bytes : List Nat) :
    ∀ (ws : List (Option Nat)) (index : Nat) (st st1 : BlockState),
      writeBlockShards split swe ws shs k index bytes st = Except.ok st1 →
      st1.totalSize = st.totalSize := by
  intro ws
  induction ws with
  | nil =>
      intro index st st1 h
      cases h
      rfl
  | cons w rest ih =>
      intro index st st1 h
      cases w with
      | none =>
          simp only [writeBlockShards] at h
          exact ih (index + 1) st st1 h
      | some wid =>
          simp only [writeBlockShards] at h
          cases hswe : swe k index with
          | some e =>
              rw [hswe] at h
              cases h
          | none =>
              rw [hswe] at h
              by_cases hc : shs.getD index none ≠ none
              · rw [if_pos hc] at h
                have h5 := ih (index + 1) _ st1 h
                exact h5
              · rw [if_neg hc] at h
                have h5 := ih (index + 1) _ st1 h
                exact h5

lemma blockLoop_done_totalSize (split : List Nat → Nat → List Nat)
    (swe : Nat → Nat → Option Err) (ws shs : List (Option Nat)) :
    ∀ (reads : List ReadResult) (k : Nat) (st st1 : BlockState),
      blockLoop split swe ws shs reads k st = LoopResult.done st1 →
      st1.totalSize = st.totalSize + consumedBytes reads := by
  intro reads
  induction reads with
  | nil =>
      intro k st st1 h
      cases h
  | cons r rest ih =>
      intro k st st1 h
      cases r with
      | readErr e =>
          simp only [blockLoop] at h
          cases h
      | eof =>
          simp only [blockLoop] at h
          cases h
          simp [consumedBytes]
      | full bytes =>
          simp only [blockLoop] at h
          by_cases hb : bytes.length > 0
          · rw [if_pos hb] at h
            cases hwbs : writeBlockShards split swe ws shs k 0 bytes
                { st with events := st.events ++ [Event.blockRead k] } with
            | error p =>
                obtain ⟨st2, e2⟩ := p
                rw [hwbs] at h
                cases h
            | ok st2 =>
                rw [hwbs] at h
                have h3 := ih (k + 1) _ st1 h
                have h4 := writeBlockShards_ok_totalSize split swe shs k bytes ws 0 _ _ hwbs
                simp only [consumedBytes]
                simp only at h3 h4
                omega
          · rw [if_neg hb] at h
            have h3 := ih (k + 1) _ st1 h
            simp only [consumedBytes]
            simp only at h3
            omega
      | shortEOF bytes =>
          simp only [blockLoop] at h
          by_cases hb : bytes.length > 0
          · rw [if_pos hb] at h
            cases hwbs : writeBlockShards split swe ws shs k 0 bytes
                { st with events := st.events ++ [Event.blockRead k] } with
            | error p =>
                obtain ⟨st2, e2⟩ := p
                rw [hwbs] at h
                cases h
            | ok st2 =>
                rw [hwbs] at h
                have h3 := ih (k + 1) _ st1 h
                have h4 := writeBlockShards_ok_totalSize split swe shs k bytes ws 0 _ _ hwbs
                simp only [consumedBytes]
                simp only at h3 h4
                omega
          · rw [if_neg hb] at h
            have h3 := ih (k + 1) _ st1 h
            simp only [consumedBytes]
            simp only at h3
            omega

/-- C4: on every committed run, the accumulated `totalSize` is exactly the
number of input bytes consumed before EOF (0 for an empty input), and every
serialized sidecar carries `file.size` equal to its decimal form. -/
theorem file_size_equals_total_consumed (env : Env) (f : FinalState)
    (h : (writeErasure env).outcome = Outcome.committed f) :
    f.totalSize = consumedBytes env.reads ∧
    ∀ j m, f.sidecars.getD j none = some m →
      m.get? "file.size" = some (toString (consumedBytes env.reads)) := by
  obtain ⟨v, st, bst, mst, cst, hscan, hstage, hblock, hmeta, hcommit, hf⟩ :=
    committed_run env f h
  have htot : bst.totalSize = consumedBytes env.reads := by
    have h2 := blockLoop_done_totalSize env.split env.shardWriteErr st.writers
      st.sha512Writers env.reads 0 (initBlockState env.numDisks) bst hblock
    simpa [initBlockState] using h2
  have hbase := buildMetadata_get_size env.minioVersion bst.totalSize env.numDisks
    st.writers.length v env.modTimeStr env.dataBlocks env.parityBlocks
  have hsc := metaWriteLoop_get_other env.hash512 env.hexEnc env.metaWriteErr
    "file.size" (by decide) (some (toString bst.totalSize)) st.metadataWriters
    st.sha512Writers bst.hashed 0
    (initMetaWrite env.numDisks (buildMetadata env.minioVersion bst.totalSize
      env.numDisks st.writers.length v env.modTimeStr env.dataBlocks env.parityBlocks))
    mst hbase (by
      intro j m hj
      simp only [initMetaWrite] at hj
      rw [List.getD_eq_getElem?_getD, List.getElem?_replicate] at hj
      by_cases hc : j < env.numDisks <;> simp [hc] at hj) hmeta
  constructor
  · rw [hf]
    exact htot
  · intro j m hj
    rw [hf] at hj
    have h5 := hsc j m hj
    rw [htot] at h5
    exact h5

theorem file_size_equals_total_consumed_witness :
    fC4.totalSize = consumedBytes envC4.reads ∧
    ∀ j m, fC4.sidecars.getD j none = some m →
      m.get? "file.size" = some (toString (consumedBytes envC4.reads)) :=
  file_size_equals_total_consumed envC4 fC4 rfl

lemma drop_cons_rest {α : Type} (A : List α) (index : Nat) (x : α) (rest : List α)
    (h : x :: rest = A.drop index) :
    rest = A.drop (index + 1) ∧ A[index]? = some x := by
  constructor
  · have h2 := congrArg List.tail h
    simpa [List.tail_drop] using h2
  · have h2 := congrArg (fun l => l[0]?) h
    simp only [List.getElem?_drop, Nat.add_zero] at h2
    simpa using h2.symm

/-- The per-block disk loop feeds each live hasher exactly the bytes it
writes to the corresponding part writer. -/
lemma writeBlockShards_sync (split : List Nat → Nat → List Nat)
    (swe : Nat → Nat → Option Err) (A : List (Option Nat)) (k : Nat)
    (bytes : List Nat) :
    ∀ (ws : List (Option Nat)) (index : Nat) (st st1 : BlockState),
      ws = A.drop index →
      st.written = st.hashed →
      writeBlockShards split swe ws A k index bytes st = Except.ok st1 →
      st1.written = st1.hashed := by
  intro ws
  induction ws with
  | nil =>
      intro index st st1 hdrop hsync h
      cases h
      exact hsync
  | cons w rest ih =>
      intro index st st1 hdrop hsync h
      obtain ⟨hrest, hhead⟩ := drop_cons_rest A index w rest hdrop
      cases w with
      | none =>
          simp only [writeBlockShards] at h
          exact ih (index + 1) st st1 hrest hsync h
      | some wid =>
          have hgetA : A.getD index none ≠ none := by
            rw [List.getD_eq_getElem?_getD, hhead]
            simp
          simp only [writeBlockShards] at h
          cases hswe : swe k index with
          | some e =>
              rw [hswe] at h
              cases h
          | none =>
              rw [hswe] at h
              rw [if_pos hgetA] at h
              refine ih (index + 1)
                { written := st.written.set index
                    (st.written.getD index [] ++ split bytes index)
                , hashed := st.hashed.set index
                    (st.hashed.getD index [] ++ split bytes index)
                , totalSize := st.totalSize
                , events := st.events ++ [Event.shardWrite k index] }
                st1 hrest ?_ h
              simp only [hsync]

/-- The block loop, run with the same array as writers and hashers, keeps
the written and hashed byte streams identical. -/
lemma blockLoop_sync (split : List Nat → Nat → List Nat)
    (swe : Nat → Nat → Option Err) (A : List (Option Nat)) :
    ∀ (reads : List ReadResult) (k : Nat) (st st1 : BlockState),
      st.written = st.hashed →
      blockLoop split swe A A reads k st = LoopResult.done st1 →
      st1.written = st1.hashed := by
  intro reads
  induction reads with
  | nil =>
      intro k st st1 hs h
      cases h
  | cons r rest ih =>
      intro k st st1 hs h
      cases r with
      | readErr e =>
          simp only [blockLoop] at h
          cases h
      | eof =>
          simp only [blockLoop] at h
          cases h
          exact hs
      | full bytes =>
          simp only [blockLoop] at h
          by_cases hb : bytes.length > 0
          · rw [if_pos hb] at h
            cases hwbs : writeBlockShards split swe A A k 0 bytes
                { st with events := st.events ++ [Event.blockRead k] } with
            | error p =>
                obtain ⟨st2, e2⟩ := p
                rw [hwbs] at h
                cases h
            | ok st2 =>
                rw [hwbs] at h
                have hs2 := writeBlockShards_sync split swe A k bytes A 0
                  { st with events := st.events ++ [Event.blockRead k] } st2 rfl hs hwbs
                exact ih (k + 1) { st2 with totalSize := st2.totalSize + bytes.length }
                  st1 hs2 h
          · rw [if_neg hb] at h
            exact ih (k + 1) { st with events := st.events ++ [Event.blockRead k] } st1 hs h
      | shortEOF bytes =>
          simp only [blockLoop] at h
          by_cases hb : bytes.length > 0
          · rw [if_pos hb] at h
            cases hwbs : writeBlockShards split swe A A k 0 bytes
                { st with events := st.events ++ [Event.blockRead k] } with
            | error p =>
                obtain ⟨st2, e2⟩ := p
                rw [hwbs] at h
                cases h
            | ok st2 =>
                rw [hwbs] at h
                have hs2 := writeBlockShards_sync split swe A k bytes A 0
                  { st with events := st.events ++ [Event.blockRead k] } st2 rfl hs hwbs
                exact ih (k + 1) { st2 with totalSize := st2.totalSize + bytes.length }
                  st1 hs2 h
          · rw [if_neg hb] at h
            exact ih (k + 1) { st with events := st.events ++ [Event.blockRead k] } st1 hs h

/-- Every sidecar serialized by the metadata-write loop carries the
hex-encoded digest of its own disk's hashed stream. -/
lemma metaWriteLoop_block512 (hash512 : List Nat → List Nat)
    (hexEnc : List Nat → String) (mErr : Nat → Option Err)
    (hashed : List (List Nat)) (A : List (Option Nat)) :
    ∀ (mws : List (Option Nat)) (index : Nat) (st st1 : MetaWriteState),
      mws = A.drop index →
      (∀ j m, st.sidecars.getD j none = some m →
        m.get? "file.xl.block512Sum" = some (hexEnc (hash512 (hashed.getD j [])))) →
      metaWriteLoop hash512 hexEnc mErr mws A hashed index st = Except.ok st1 →
      (∀ j m, st1.sidecars.getD j none = some m →
        m.get? "file.xl.block512Sum" = some (hexEnc (hash512 (hashed.getD j [])))) := by
  intro mws
  induction mws with
  | nil =>
      intro index st st1 hdrop hinv h
      cases h
      exact hinv
  | cons w rest ih =>
      intro index st st1 hdrop hinv h
      obtain ⟨hrest, hhead⟩ := drop_cons_rest A index w rest hdrop
      cases w with
      | none =>
          simp only [metaWriteLoop] at h
          exact ih (index + 1) st st1 hrest hinv h
      | some wid =>
          have hgetA : A.getD index none ≠ none := by
            rw [List.getD_eq_getElem?_getD, hhead]
            simp
          simp only [metaWriteLoop] at h
          rw [if_pos hgetA] at h
          cases hme : mErr index with
          | some e =>
              rw [hme] at h
              cases h
          | none =>
              rw [hme] at h
              refine ih (index + 1)
                  { sidecars := st.sidecars.set index
                      (some (st.metadata.set "file.xl.block512Sum"
                        (hexEnc (hash512 (hashed.getD index [])))))
                  , metadata := st.metadata.set "file.xl.block512Sum"
                      (hexEnc (hash512 (hashed.getD index [])))
                  , events := st.events ++ [Event.sidecarWrite index] }
                  st1 hrest ?_ h
              intro j m hj
              simp only at hj
              rcases getD_set_or st.sidecars index j
                  (some (st.metadata.set "file.xl.block512Sum"
                    (hexEnc (hash512 (hashed.getD index []))))) with hold | ⟨hij, hnew⟩
              · rw [hold] at hj
                exact hinv j m hj
              · rw [hnew] at hj
                cases hj
                rw [← hij]
                exact fileMetadata_get_set_same _ _ _

/-- C3: on every committed run, each serialized sidecar's
`file.xl.block512Sum` is the hex encoding of the 512-bit digest of exactly
the concatenated shard bytes written to that disk's `part.i`; the value is
a function of that disk's own stream alone. -/
theorem block512Sum_matches_part_bytes (env : Env) (f : FinalState)
    (h : (writeErasure env).outcome = Outcome.committed f) :
    ∀ j m, f.sidecars.getD j none = some m →
      m.get? "file.xl.block512Sum" =
        some (env.hexEnc (env.hash512 (f.written.getD j []))) := by
  obtain ⟨v, st, bst, mst, cst, hscan, hstage, hblock, hmeta, hcommit, hf⟩ :=
    committed_run env f h
  obtain ⟨heq, _⟩ := stageLoop_done_inv env.stageOuts 0 env.numDisks env.writeQuorum 0
    (initStaged env.numDisks) st hstage
  obtain ⟨hwm, hws⟩ := heq ⟨rfl, rfl⟩
  rw [← hws] at hblock
  have hsync : bst.written = bst.hashed :=
    blockLoop_sync env.split env.shardWriteErr st.writers env.reads 0
      (initBlockState env.numDisks) bst rfl hblock
  have hdrop : st.metadataWriters = st.sha512Writers.drop 0 := by
    rw [List.drop_zero, ← hwm, hws]
  have hsc := metaWriteLoop_block512 env.hash512 env.hexEnc env.metaWriteErr bst.hashed
    st.sha512Writers st.metadataWriters 0
    (initMetaWrite env.numDisks (buildMetadata env.minioVersion bst.totalSize
      env.numDisks st.writers.length v env.modTimeStr env.dataBlocks env.parityBlocks))
    mst hdrop (by
      intro j m hj
      simp only [initMetaWrite] at hj
      rw [List.getD_eq_getElem?_getD, List.getElem?_replicate] at hj
      by_cases hc : j < env.numDisks <;> simp [hc] at hj) hmeta
  intro j m hj
  rw [hf] at hj
  have h5 := hsc j m hj
  rw [hf]
  simp only
  rw [hsync]
  exact h5

theorem block512Sum_matches_part_bytes_witness :
    fileMetadata.get? [("version", "1.0"), ("format.major", "1"), ("format.minor", "0"),
      ("format.patch", "0"), ("file.size", "2"), ("file.modTime", "t"),
      ("file.xl.blockSize", "4194304"), ("file.xl.dataBlocks", "1"),
      ("file.xl.parityBlocks", "1"), ("file.xl.block512Sum", "[9, 6, 7]")]
      "file.xl.block512Sum" =
      some (envC3.hexEnc (envC3.hash512 (fC3.written.getD 1 []))) :=
  block512Sum_matches_part_bytes envC3 fC3 rfl 1
    [("version", "1.0"), ("format.major", "1"), ("format.minor", "0"),
      ("format.patch", "0"), ("file.size", "2"), ("file.modTime", "t"),
      ("file.xl.blockSize", "4194304"), ("file.xl.dataBlocks", "1"),
      ("file.xl.parityBlocks", "1"), ("file.xl.block512Sum", "[9, 6, 7]")] rfl

/-! ### Cleanup on abort (C7) -/

lemma closeAndRemoveWriters_eq (ws : List (Option Nat)) :
    closeAndRemoveWriters ws = ws.filterMap id := by
  induction ws with
  | nil => rfl
  | cons w rest ih =>
      cases w with
      | none => simp [closeAndRemoveWriters, safeCloseAndRemove, ih]
      | some wid => simp [closeAndRemoveWriters, safeCloseAndRemove, ih]

lemma deleteAllDisks_attempted (derr : Nat → Option Err) (disks : List Nat) :
    (deleteAllDisks derr disks).1 = disks := by
  induction disks with
  | nil => rfl
  | cons i rest ih =>
      simp only [deleteAllDisks]
      cases derr i <;> simp [ih]

/-- Every abort outcome was produced by `cleanupCreateFileOps` on some
writer list, and the same run with any other `DeleteFile` oracle aborts
with the same originating error. -/
lemma aborted_run (env : Env) (report : CleanupReport) (e : Err)
    (h : (writeErasure env).outcome = Outcome.aborted report e) :
    ∃ ws, report = cleanupCreateFileOps env.numDisks env.deleteErr ws ∧
      ∀ d2, (writeErasure { env with deleteErr := d2 }).outcome =
        Outcome.aborted (cleanupCreateFileOps env.numDisks d2 ws) e := by
  cases hscan : versionScan env.metaReads env.readQuorum with
  | error e0 =>
      simp only [writeErasure, hscan] at h
      exact Outcome.noConfusion h
  | ok v =>
      cases hstage : stageLoop env.stageOuts 0 env.numDisks env.writeQuorum 0
          (initStaged env.numDisks) with
      | aborted st e0 =>
          simp only [writeErasure, hscan, hstage] at h
          injection h with h1 h2
          subst h2
          refine ⟨st.writers ++ st.metadataWriters, h1.symm, fun d2 => ?_⟩
          simp only [writeErasure, Env.numDisks, hscan]
          simp only [Env.numDisks] at hstage
          simp only [hstage]
      | done st =>
          cases hblock : blockLoop env.split env.shardWriteErr st.writers st.sha512Writers
              env.reads 0 (initBlockState env.numDisks) with
          | starved bst =>
              simp only [writeErasure, hscan, hstage, hblock] at h
              exact Outcome.noConfusion h
          | aborted bst e0 =>
              simp only [writeErasure, hscan, hstage, hblock] at h
              injection h with h1 h2
              subst h2
              refine ⟨st.writers ++ st.metadataWriters, h1.symm, fun d2 => ?_⟩
              simp only [writeErasure, Env.numDisks, hscan]
              simp only [Env.numDisks] at hstage hblock
              simp only [hstage, hblock]
          | done bst =>
              cases hmeta : metaWriteLoop env.hash512 env.hexEnc env.metaWriteErr
                  st.metadataWriters st.sha512Writers bst.hashed 0
                  (initMetaWrite env.numDisks (buildMetadata env.minioVersion bst.totalSize
                    env.numDisks st.writers.length v env.modTimeStr env.dataBlocks
                    env.parityBlocks)) with
              | error p =>
                  obtain ⟨mst1, e0⟩ := p
                  simp only [writeErasure, hscan, hstage, hblock, hmeta] at h
                  injection h with h1 h2
                  subst h2
                  refine ⟨st.writers ++ st.metadataWriters, h1.symm, fun d2 => ?_⟩
                  simp only [writeErasure, Env.numDisks, hscan]
                  simp only [Env.numDisks] at hstage hblock hmeta
                  simp only [hstage, hblock, hmeta]
              | ok mst =>
                  cases hcommit : commitLoop env.closeShardErr env.closeMetaErr st.writers
                      st.metadataWriters 0 initCommit with
                  | error p =>
                      obtain ⟨cst1, e0⟩ := p
                      simp only [writeErasure, hscan, hstage, hblock, hmeta, hcommit] at h
                      injection h with h1 h2
                      subst h2
                      refine ⟨st.writers ++ st.metadataWriters, h1.symm, fun d2 => ?_⟩
                      simp only [writeErasure, Env.numDisks, hscan]
                      simp only [Env.numDisks] at hstage hblock hmeta hcommit
                      simp only [hstage, hblock, hmeta, hcommit]
                  | ok cst =>
                      simp only [writeErasure, hscan, hstage, hblock, hmeta, hcommit] at h
                      exact Outcome.noConfusion h

/-- C7: every abort ran `cleanupCreateFileOps`, which close-and-discards
exactly the non-nil staged writers and attempts `DeleteFile` on every disk
of the full disk set; individual delete errors neither stop the remaining
deletes (all `N` are always attempted, under any delete oracle) nor replace
the originating error signaled to the pipe reader. -/
theorem cleanup_deletes_all_and_keeps_error (env : Env) (report : CleanupReport)
    (e : Err) (h : (writeErasure env).outcome = Outcome.aborted report e) :
    (∃ ws, report = cleanupCreateFileOps env.numDisks env.deleteErr ws ∧
      report.closedAndRemoved = ws.filterMap id) ∧
    report.deletesAttempted = List.range env.numDisks ∧
    ∀ d2, ∃ report2,
      (writeErasure { env with deleteErr := d2 }).outcome = Outcome.aborted report2 e ∧
      report2.deletesAttempted = List.range env.numDisks := by
  obtain ⟨ws, hrep, hinv⟩ := aborted_run env report e h
  refine ⟨⟨ws, hrep, ?_⟩, ?_, fun d2 => ?_⟩
  · rw [hrep]
    simp only [cleanupCreateFileOps]
    exact closeAndRemoveWriters_eq ws
  · rw [hrep]
    simp only [cleanupCreateFileOps]
    exact deleteAllDisks_attempted env.deleteErr (List.range env.numDisks)
  · refine ⟨cleanupCreateFileOps env.numDisks d2 ws, hinv d2, ?_⟩
    simp only [cleanupCreateFileOps]
    exact deleteAllDisks_attempted d2 (List.range env.numDisks)

theorem cleanup_deletes_all_and_keeps_error_witness :
    (∃ ws, reportC7 = cleanupCreateFileOps envC7.numDisks envC7.deleteErr ws ∧
      reportC7.closedAndRemoved = ws.filterMap id) ∧
    reportC7.deletesAttempted = List.range envC7.numDisks ∧
    ∀ d2, ∃ report2,
      (writeErasure { envC7 with deleteErr := d2 }).outcome =
        Outcome.aborted report2 (Err.ioErr 5) ∧
      report2.deletesAttempted = List.range envC7.numDisks :=
  cleanup_deletes_all_and_keeps_error envC7 reportC7 (Err.ioErr 5) rfl

/-! ### Event ranks of the phase traces (C9) -/

lemma mem_append_rank {evs tail : List Event} {r : Nat} {ev : Event}
    (htail : ∀ e2 ∈ tail, eventRank e2 = r) (h : ev ∈ evs ++ tail) :
    ev ∈ evs ∨ eventRank ev = r := by
  rcases List.mem_append.mp h with h2 | h2
  · exact Or.inl h2
  · exact Or.inr (htail ev h2)

lemma stageLoop_events_rank (outs : List StageOutcome) :
    ∀ index n w c st ev, ev ∈ (stageLoop outs index n w c st).state.events →
      ev ∈ st.events ∨ eventRank ev = 3 := by
  induction outs with
  | nil =>
      intro index n w c st ev h
      exact Or.inl h
  | cons o rest ih =>
      intro index n w c st ev h
      have hcpm : ∀ e2 ∈ [Event.createPart index, Event.createMeta index],
          eventRank e2 = 3 := by
        intro e2 h2
        rcases List.mem_cons.mp h2 with h3 | h3
        · rw [h3]; rfl
        · rw [List.mem_singleton.mp h3]; rfl
      have hcp : ∀ e2 ∈ [Event.createPart index], eventRank e2 = 3 := by
        intro e2 h2
        rw [List.mem_singleton.mp h2]; rfl
      cases o with
      | ok =>
          simp only [stageLoop] at h
          rcases ih (index + 1) n w c _ ev h with h2 | h2
          · exact mem_append_rank hcpm h2
          · exact Or.inr h2
      | partFail =>
          simp only [stageLoop] at h
          split at h
          · rcases ih (index + 1) n w (c + 1) _ ev h with h2 | h2
            · exact mem_append_rank hcp h2
            · exact Or.inr h2
          · exact mem_append_rank hcp h
      | metaFail =>
          simp only [stageLoop] at h
          split at h
          · rcases ih (index + 1) n w (c + 1) _ ev h with h2 | h2
            · exact mem_append_rank hcpm h2
            · exact Or.inr h2
          · exact mem_append_rank hcpm h

lemma writeBlockShards_events_rank (split : List Nat → Nat → List Nat)
    (swe : Nat → Nat → Option Err) (shs : List (Option Nat)) (k : Nat)
    (bytes : List Nat) :
    ∀ (ws : List (Option Nat)) (index : Nat) (st : BlockState) (ev : Event),
      ev ∈ (exceptState (writeBlockShards split swe ws shs k index bytes st)).events →
      ev ∈ st.events ∨ eventRank ev = 4 := by
  intro ws
  induction ws with
  | nil =>
      intro index st ev h
      exact Or.inl h
  | cons w rest ih =>
      intro index st ev h
      have hsw : ∀ e2 ∈ [Event.shardWrite k index], eventRank e2 = 4 := by
        intro e2 h2
        rw [List.mem_singleton.mp h2]; rfl
      cases w with
      | none =>
          simp only [writeBlockShards] at h
          exact ih (index + 1) st ev h
      | some wid =>
          simp only [writeBlockShards] at h
          cases hswe : swe k index with
          | some e =>
              rw [hswe] at h
              exact mem_append_rank hsw h
          | none =>
              rw [hswe] at h
              by_cases hc : shs.getD index none ≠ none
              · rw [if_pos hc] at h
                rcases ih (index + 1) _ ev h with h2 | h2
                · exact mem_append_rank hsw h2
                · exact Or.inr h2
              · rw [if_neg hc] at h
                rcases ih (index + 1) _ ev h with h2 | h2
                · exact mem_append_rank hsw h2
                · exact Or.inr h2

lemma blockLoop_events_rank (split : List Nat → Nat → List Nat)
    (swe : Nat → Nat → Option Err) (ws shs : List (Option Nat)) :
    ∀ (reads : List ReadResult) (k : Nat) (st : BlockState) (ev : Event),
      ev ∈ (blockLoop split swe ws shs reads k st).state.events →
      ev ∈ st.events ∨ eventRank ev = 4 := by
  intro reads
  induction reads with
  | nil =>
      intro k st ev h
      exact Or.inl h
  | cons r rest ih =>
      intro k st ev h
      have hbr : ∀ e2 ∈ [Event.blockRead k], eventRank e2 = 4 := by
        intro e2 h2
        rw [List.mem_singleton.mp h2]; rfl
      cases r with
      | readErr e =>
          simp only [blockLoop, LoopResult.state] at h
          exact mem_append_rank hbr h
      | eof =>
          simp only [blockLoop, LoopResult.state] at h
          exact mem_append_rank hbr h
      | full bytes =>
          simp only [blockLoop] at h
          by_cases hb : bytes.length > 0
          · rw [if_pos hb] at h
            cases hwbs : writeBlockShards split swe ws shs k 0 bytes
                { st with events := st.events ++ [Event.blockRead k] } with
            | error p =>
                obtain ⟨st2, e2⟩ := p
                rw [hwbs] at h
                simp only [LoopResult.state] at h
                have h4 := writeBlockShards_events_rank split swe shs k bytes ws 0
                  { st with events := st.events ++ [Event.blockRead k] } ev
                  (by rw [hwbs]; simp only [exceptState]; exact h)
                rcases h4 with h5 | h5
                · exact mem_append_rank hbr h5
                · exact Or.inr h5
            | ok st2 =>
                rw [hwbs] at h
                rcases ih (k + 1) { st2 with totalSize := st2.totalSize + bytes.length }
                    ev h with h2 | h2
                · have h4 := writeBlockShards_events_rank split swe shs k bytes ws 0
                    { st with events := st.events ++ [Event.blockRead k] } ev
                    (by rw [hwbs]; simp only [exceptState]; exact h2)
                  rcases h4 with h5 | h5
                  · exact mem_append_rank hbr h5
                  · exact Or.inr h5
                · exact Or.inr h2
          · rw [if_neg hb] at h
            rcases ih (k + 1) { st with events := st.events ++ [Event.blockRead k] }
                ev h with h2 | h2
            · exact mem_append_rank hbr h2
            · exact Or.inr h2
      | shortEOF bytes =>
          simp only [blockLoop] at h
          by_cases hb : bytes.length > 0
          · rw [if_pos hb] at h
            cases hwbs : writeBlockShards split swe ws shs k 0 bytes
                { st with events := st.events ++ [Event.blockRead k] } with
            | error p =>
                obtain ⟨st2, e2⟩ := p
                rw [hwbs] at h
                simp only [LoopResult.state] at h
                have h4 := writeBlockShards_events_rank split swe shs k bytes ws 0
                  { st with events := st.events ++ [Event.blockRead k] } ev
                  (by rw [hwbs]; simp only [exceptState]; exact h)
                rcases h4 with h5 | h5
                · exact mem_append_rank hbr h5
                · exact Or.inr h5
            | ok st2 =>
                rw [hwbs] at h
                rcases ih (k + 1) { st2 with totalSize := st2.totalSize + bytes.length }
                    ev h with h2 | h2
                · have h4 := writeBlockShards_events_rank split swe shs k bytes ws 0
                    { st with events := st.events ++ [Event.blockRead k] } ev
                    (by rw [hwbs]; simp only [exceptState]; exact h2)
                  rcases h4 with h5 | h5
                  · exact mem_append_rank hbr h5
                  · exact Or.inr h5
                · exact Or.inr h2
          · rw [if_neg hb] at h
            rcases ih (k + 1) { st with events := st.events ++ [Event.blockRead k] }
                ev h with h2 | h2
            · exact mem_append_rank hbr h2
            · exact Or.inr h2

lemma metaWriteLoop_events_rank (hash512 : List Nat → List Nat)
    (hexEnc : List Nat → String) (mErr : Nat → Option Err) :
    ∀ (mws shs : List (Option Nat)) (hashed : List (List Nat)) (index : Nat)
      (st : MetaWriteState) (ev : Event),
      ev ∈ (exceptState (metaWriteLoop hash512 hexEnc mErr mws shs hashed index st)).events →
      ev ∈ st.events ∨ eventRank ev = 5 := by
  intro mws
  induction mws with
  | nil =>
      intro shs hashed index st ev h
      exact Or.inl h
  | cons w rest ih =>
      intro shs hashed index st ev h
      have hsw : ∀ e2 ∈ [Event.sidecarWrite index], eventRank e2 = 5 := by
        intro e2 h2
        rw [List.mem_singleton.mp h2]; rfl
      cases w with
      | none =>
          simp only [metaWriteLoop] at h
          exact ih shs hashed (index + 1) st ev h
      | some wid =>
          simp only [metaWriteLoop] at h
          by_cases hc : shs.getD index none ≠ none
          · rw [if_pos hc] at h
            cases hme : mErr index with
            | some e =>
                rw [hme] at h
                exact mem_append_rank hsw h
            | none =>
                rw [hme] at h
                rcases ih shs hashed (index + 1) _ ev h with h2 | h2
                · exact mem_append_rank hsw h2
                · exact Or.inr h2
          · rw [if_neg hc] at h
            cases hme : mErr index with
            | some e =>
                rw [hme] at h
                exact mem_append_rank hsw h
            | none =>
                rw [hme] at h
                rcases ih shs hashed (index + 1) _ ev h with h2 | h2
                · exact mem_append_rank hsw h2
                · exact Or.inr h2

lemma commitLoop_events_rank (cse cme : Nat → Option Err) :
    ∀ (ws mws : List (Option Nat)) (index : Nat) (st : CommitState) (ev : Event),
      ev ∈ (exceptState (commitLoop cse cme ws mws index st)).events →
      ev ∈ st.events ∨ eventRank ev = 7 := by
  intro ws
  induction ws with
  | nil =>
      intro mws index st ev h
      exact Or.inl h
  | cons w rest ih =>
      intro mws index st ev h
      have hcs : ∀ e2 ∈ [Event.closeShard index], eventRank e2 = 7 := by
        intro e2 h2
        rw [List.mem_singleton.mp h2]; rfl
      have hcm : ∀ e2 ∈ [Event.closeSidecar index], eventRank e2 = 7 := by
        intro e2 h2
        rw [List.mem_singleton.mp h2]; rfl
      cases w with
      | none =>
          simp only [commitLoop] at h
          exact ih mws (index + 1) st ev h
      | some wid =>
          simp only [commitLoop] at h
          cases hcse : cse index with
          | some e =>
              rw [hcse] at h
              exact mem_append_rank hcs h
          | none =>
              rw [hcse] at h
              cases hmw : mws.getD index none with
              | none =>
                  rw [hmw] at h
                  rcases ih mws (index + 1) _ ev h with h2 | h2
                  · exact mem_append_rank hcs h2
                  · exact Or.inr h2
              | some mwid =>
                  rw [hmw] at h
                  cases hcme : cme index with
                  | some e =>
                      rw [hcme] at h
                      rcases mem_append_rank hcm h with h2 | h2
                      · exact mem_append_rank hcs h2
                      · exact Or.inr h2
                  | none =>
                      rw [hcme] at h
                      rcases ih mws (index + 1) _ ev h with h2 | h2
                      · rcases mem_append_rank hcm h2 with h3 | h3
                        · exact mem_append_rank hcs h3
                        · exact Or.inr h3
                      · exact Or.inr h2

lemma deleteAllDisks_events_rank (derr : Nat → Option Err) (disks : List Nat) :
    ∀ ev ∈ (deleteAllDisks derr disks).2.2, eventRank ev = 8 := by
  induction disks with
  | nil =>
      intro ev h
      cases h
  | cons i rest ih =>
      intro ev h
      simp only [deleteAllDisks] at h
      cases hd : derr i <;> rw [hd] at h <;>
        rcases List.mem_cons.mp h with h2 | h2
      · rw [h2]; rfl
      · exact ih ev h2
      · rw [h2]; rfl
      · exact ih ev h2

lemma cleanup_events_rank (n : Nat) (derr : Nat → Option Err)
    (ws : List (Option Nat)) :
    ∀ ev ∈ (cleanupCreateFileOps n derr ws).events, eventRank ev = 8 := by
  intro ev h
  simp only [cleanupCreateFileOps] at h
  rcases List.mem_cons.mp h with h2 | h2
  · rw [h2]; rfl
  · exact deleteAllDisks_events_rank derr (List.range n) ev h2

/-- Every producer trace decomposes into the shared-lock scan prefix
followed by the staging, block-loop, metadata-write, exclusive-lock,
commit, error-handling and unlock segments, each homogeneous in rank. -/
lemma trace_decomposition (env : Env) :
    ∃ t3 t4 t5 t6 t7 t8 t9 : List Event,
      (writeErasure env).trace =
        [Event.lockNS true, Event.metaRead, Event.unlockNS true] ++
          (t3 ++ (t4 ++ (t5 ++ (t6 ++ (t7 ++ (t8 ++ t9)))))) ∧
      (∀ ev ∈ t3, eventRank ev = 3) ∧
      (∀ ev ∈ t4, eventRank ev = 4) ∧
      (∀ ev ∈ t5, eventRank ev = 5) ∧
      (∀ ev ∈ t6, eventRank ev = 6) ∧
      (∀ ev ∈ t7, eventRank ev = 7) ∧
      (∀ ev ∈ t8, eventRank ev = 8) ∧
      (∀ ev ∈ t9, eventRank ev = 9) ∧
      (t7 ≠ [] → Event.lockNS false ∈ t6 ∧ Event.unlockNS false ∈ t9) := by
  have hnil : ∀ ev : Event, ev ∈ ([] : List Event) → False := fun ev h => by cases h
  cases hscan : versionScan env.metaReads env.readQuorum with
  | error e =>
      refine ⟨[], [], [], [], [], [Event.closeWithError e], [], ?_, ?_⟩
      · simp only [writeErasure, hscan]
        simp
      exact ⟨fun ev h => absurd h (hnil ev), fun ev h => absurd h (hnil ev),
        fun ev h => absurd h (hnil ev), fun ev h => absurd h (hnil ev),
        fun ev h => absurd h (hnil ev),
        fun ev h => by rw [List.mem_singleton.mp h]; rfl,
        fun ev h => absurd h (hnil ev), fun h => absurd rfl h⟩
  | ok v =>
      cases hstage : stageLoop env.stageOuts 0 env.numDisks env.writeQuorum 0
          (initStaged env.numDisks) with
      | aborted st e =>
          have h3 : ∀ ev ∈ st.events, eventRank ev = 3 := by
            intro ev h
            rcases stageLoop_events_rank env.stageOuts 0 env.numDisks env.writeQuorum 0
                (initStaged env.numDisks) ev (by rw [hstage]; exact h) with h2 | h2
            · exact absurd h2 (hnil ev)
            · exact h2
          set report := cleanupCreateFileOps env.numDisks env.deleteErr
            (st.writers ++ st.metadataWriters) with hreport
          refine ⟨st.events, [], [], [], [],
            report.events ++ [Event.closeWithError e], [], ?_, h3, ?_⟩
          · simp only [writeErasure, hscan, hstage]
            simp [List.append_assoc]
          refine ⟨fun ev h => absurd h (hnil ev), fun ev h => absurd h (hnil ev),
            fun ev h => absurd h (hnil ev), fun ev h => absurd h (hnil ev), ?_,
            fun ev h => absurd h (hnil ev), fun h => absurd rfl h⟩
          intro ev h
          rcases List.mem_append.mp h with h2 | h2
          · exact cleanup_events_rank env.numDisks env.deleteErr
              (st.writers ++ st.metadataWriters) ev h2
          · rw [List.mem_singleton.mp h2]; rfl
      | done st =>
          have h3 : ∀ ev ∈ st.events, eventRank ev = 3 := by
            intro ev h
            rcases stageLoop_events_rank env.stageOuts 0 env.numDisks env.writeQuorum 0
                (initStaged env.numDisks) ev (by rw [hstage]; exact h) with h2 | h2
            · exact absurd h2 (hnil ev)
            · exact h2
          cases hblock : blockLoop env.split env.shardWriteErr st.writers st.sha512Writers
              env.reads 0 (initBlockState env.numDisks) with
          | starved bst =>
              have h4 : ∀ ev ∈ bst.events, eventRank ev = 4 := by
                intro ev h
                rcases blockLoop_events_rank env.split env.shardWriteErr st.writers
                    st.sha512Writers env.reads 0 (initBlockState env.numDisks) ev
                    (by rw [hblock]; exact h) with h2 | h2
                · exact absurd h2 (hnil ev)
                · exact h2
              refine ⟨st.events, bst.events, [], [], [], [], [], ?_, h3, h4, ?_⟩
              · simp only [writeErasure, hscan, hstage, hblock]
                simp [List.append_assoc]
              exact ⟨fun ev h => absurd h (hnil ev), fun ev h => absurd h (hnil ev),
                fun ev h => absurd h (hnil ev), fun ev h => absurd h (hnil ev),
                fun ev h => absurd h (hnil ev), fun h => absurd rfl h⟩
          | aborted bst e =>
              have h4 : ∀ ev ∈ bst.events, eventRank ev = 4 := by
                intro ev h
                rcases blockLoop_events_rank env.split env.shardWriteErr st.writers
                    st.sha512Writers env.reads 0 (initBlockState env.numDisks) ev
                    (by rw [hblock]; exact h) with h2 | h2
                · exact absurd h2 (hnil ev)
                · exact h2
              refine ⟨st.events, bst.events, [], [], [],
                (cleanupCreateFileOps env.numDisks env.deleteErr
                  (st.writers ++ st.metadataWriters)).events ++ [Event.closeWithError e],
                [], ?_, h3, h4, ?_⟩
              · simp only [writeErasure, hscan, hstage, hblock]
                simp [List.append_assoc]
              refine ⟨fun ev h => absurd h (hnil ev), fun ev h => absurd h (hnil ev),
                fun ev h => absurd h (hnil ev), ?_, fun ev h => absurd h (hnil ev),
                fun h => absurd rfl h⟩
              intro ev h
              rcases List.mem_append.mp h with h2 | h2
              · exact cleanup_events_rank env.numDisks env.deleteErr
                  (st.writers ++ st.metadataWriters) ev h2
              · rw [List.mem_singleton.mp h2]; rfl
          | done bst =>
              have h4 : ∀ ev ∈ bst.events, eventRank ev = 4 := by
                intro ev h
                rcases blockLoop_events_rank env.split env.shardWriteErr st.writers
                    st.sha512Writers env.reads 0 (initBlockState env.numDisks) ev
                    (by rw [hblock]; exact h) with h2 | h2
                · exact absurd h2 (hnil ev)
                · exact h2
              cases hmeta : metaWriteLoop env.hash512 env.hexEnc env.metaWriteErr
                  st.metadataWriters st.sha512Writers bst.hashed 0
                  (initMetaWrite env.numDisks (buildMetadata env.minioVersion bst.totalSize
                    env.numDisks st.writers.length v env.modTimeStr env.dataBlocks
                    env.parityBlocks)) with
              | error p =>
                  obtain ⟨mst1, e⟩ := p
                  have h5 : ∀ ev ∈ mst1.events, eventRank ev = 5 := by
                    intro ev h
                    rcases metaWriteLoop_events_rank env.hash512 env.hexEnc env.metaWriteErr
                        st.metadataWriters st.sha512Writers bst.hashed 0
                        (initMetaWrite env.numDisks (buildMetadata env.minioVersion
                          bst.totalSize env.numDisks st.writers.length v env.modTimeStr
                          env.dataBlocks env.parityBlocks)) ev
                        (by rw [hmeta]; simp only [exceptState]; exact h) with h2 | h2
                    · exact absurd h2 (hnil ev)
                    · exact h2
                  refine ⟨st.events, bst.events, mst1.events, [], [],
                    (cleanupCreateFileOps env.numDisks env.deleteErr
                      (st.writers ++ st.metadataWriters)).events ++
                      [Event.closeWithError e], [], ?_, h3, h4, h5, ?_⟩
                  · simp only [writeErasure, hscan, hstage, hblock, hmeta]
                    simp [List.append_assoc]
                  refine ⟨fun ev h => absurd h (hnil ev), fun ev h => absurd h (hnil ev),
                    ?_, fun ev h => absurd h (hnil ev), fun h => absurd rfl h⟩
                  intro ev h
                  rcases List.mem_append.mp h with h2 | h2
                  · exact cleanup_events_rank env.numDisks env.deleteErr
                      (st.writers ++ st.metadataWriters) ev h2
                  · rw [List.mem_singleton.mp h2]; rfl
              | ok mst =>
                  have h5 : ∀ ev ∈ mst.events, eventRank ev = 5 := by
                    intro ev h
                    rcases metaWriteLoop_events_rank env.hash512 env.hexEnc env.metaWriteErr
                        st.metadataWriters st.sha512Writers bst.hashed 0
                        (initMetaWrite env.numDisks (buildMetadata env.minioVersion
                          bst.totalSize env.numDisks st.writers.length v env.modTimeStr
                          env.dataBlocks env.parityBlocks)) ev
                        (by rw [hmeta]; simp only [exceptState]; exact h) with h2 | h2
                    · exact absurd h2 (hnil ev)
                    · exact h2
                  cases hcommit : commitLoop env.closeShardErr env.closeMetaErr st.writers
                      st.metadataWriters 0 initCommit with
                  | error p =>
                      obtain ⟨cst1, e⟩ := p
                      have h7 : ∀ ev ∈ cst1.events, eventRank ev = 7 := by
                        intro ev h
                        rcases commitLoop_events_rank env.closeShardErr env.closeMetaErr
                            st.writers st.metadataWriters 0 initCommit ev
                            (by rw [hcommit]; simp only [exceptState]; exact h) with h2 | h2
                        · exact absurd h2 (hnil ev)
                        · exact h2
                      refine ⟨st.events, bst.events, mst.events, [Event.lockNS false],
                        cst1.events,
                        (cleanupCreateFileOps env.numDisks env.deleteErr
                          (st.writers ++ st.metadataWriters)).events ++
                          [Event.closeWithError e], [Event.unlockNS false],
                        ?_, h3, h4, h5, ?_, h7, ?_, ?_, ?_⟩
                      · simp only [writeErasure, hscan, hstage, hblock, hmeta, hcommit]
                        simp [List.append_assoc]
                      · intro ev h
                        rw [List.mem_singleton.mp h]; rfl
                      · intro ev h
                        rcases List.mem_append.mp h with h2 | h2
                        · exact cleanup_events_rank env.numDisks env.deleteErr
                            (st.writers ++ st.metadataWriters) ev h2
                        · rw [List.mem_singleton.mp h2]; rfl
                      · intro ev h
                        rw [List.mem_singleton.mp h]; rfl
                      · intro h
                        exact ⟨List.mem_singleton.mpr rfl, List.mem_singleton.mpr rfl⟩
                  | ok cst =>
                      have h7 : ∀ ev ∈ cst.events, eventRank ev = 7 := by
                        intro ev h
                        rcases commitLoop_events_rank env.closeShardErr env.closeMetaErr
                            st.writers st.metadataWriters 0 initCommit ev
                            (by rw [hcommit]; simp only [exceptState]; exact h) with h2 | h2
                        · exact absurd h2 (hnil ev)
                        · exact h2
                      refine ⟨st.events, bst.events, mst.events, [Event.lockNS false],
                        cst.events, [], [Event.unlockNS false, Event.closePipe],
                        ?_, h3, h4, h5, ?_, h7, ?_, ?_, ?_⟩
                      · simp only [writeErasure, hscan, hstage, hblock, hmeta, hcommit]
                        simp [List.append_assoc]
                      · intro ev h
                        rw [List.mem_singleton.mp h]; rfl
                      · exact fun ev h => absurd h (hnil ev)
                      · intro ev h
                        rcases List.mem_cons.mp h with h2 | h2
                        · rw [h2]; rfl
                        · rw [List.mem_singleton.mp h2]; rfl
                      · intro h
                        exact ⟨List.mem_singleton.mpr rfl, List.mem_cons.mpr (Or.inl rfl)⟩

lemma pairwise_rank_seg {A B : List Event} {rA rB : Nat} (hle : rA ≤ rB)
    (hA : ∀ ev ∈ A, eventRank ev = rA)
    (hB : B.Pairwise (fun a b => eventRank a ≤ eventRank b))
    (hBlo : ∀ ev ∈ B, rB ≤ eventRank ev) :
    (A ++ B).Pairwise (fun a b => eventRank a ≤ eventRank b) ∧
      ∀ ev ∈ A ++ B, rA ≤ eventRank ev := by
  constructor
  · refine List.pairwise_append.mpr ⟨?_, hB, ?_⟩
    · exact List.pairwise_of_forall_mem_list
        (fun a ha b hb => by rw [hA a ha, hA b hb])
    · intro a ha b hb
      rw [hA a ha]
      exact le_trans hle (hBlo b hb)
  · intro ev h
    rcases List.mem_append.mp h with h2 | h2
    · rw [hA ev h2]
    · exact le_trans hle (hBlo ev h2)

lemma rank_lt_of_get {t : List Event}
    (hs : t.Pairwise (fun a b => eventRank a ≤ eventRank b))
    {p q : Nat} {ea eb : Event} (hp : t.get? p = some ea) (hq : t.get? q = some eb)
    (hr : eventRank ea < eventRank eb) : p < q := by
  obtain ⟨hpl, hpe⟩ := List.get?_eq_some.mp hp
  obtain ⟨hql, hqe⟩ := List.get?_eq_some.mp hq
  by_contra hle
  push_neg at hle
  rcases Nat.lt_or_ge q p with hlt | hge
  · have := (List.pairwise_iff_get.mp hs) ⟨q, hql⟩ ⟨p, hpl⟩ hlt
    rw [hpe, hqe] at this
    omega
  · have hqp : q = p := by omega
    subst hqp
    rw [hpe] at hqe
    rw [hqe] at hr
    omega

/-- C9: in every execution the producer trace (i) opens with the shared
lock held exactly around the metadata read, with every later event from a
later phase, (ii) is sorted by phase rank — so every sidecar write follows
every shard write, and the exclusive lock follows the whole metadata-write
phase, (iii) performs shard/sidecar closes only when the exclusive lock is
taken and later released, and (iv)-(vi) place shard writes strictly before
sidecar writes, sidecar writes strictly before the exclusive lock, and the
exclusive lock strictly before every close; block-loop reads and writes
happen strictly between the shared unlock and the exclusive lock. -/
theorem producer_phase_ordering (env : Env) :
    (∃ t2, (writeErasure env).trace =
        [Event.lockNS true, Event.metaRead, Event.unlockNS true] ++ t2 ∧
      ∀ ev ∈ t2, 3 ≤ eventRank ev) ∧
    (writeErasure env).trace.Pairwise (fun a b => eventRank a ≤ eventRank b) ∧
    (∀ i, (Event.closeShard i ∈ (writeErasure env).trace ∨
        Event.closeSidecar i ∈ (writeErasure env).trace) →
      Event.lockNS false ∈ (writeErasure env).trace ∧
      Event.unlockNS false ∈ (writeErasure env).trace) ∧
    (∀ p q k i j, (writeErasure env).trace.get? p = some (Event.shardWrite k i) →
      (writeErasure env).trace.get? q = some (Event.sidecarWrite j) → p < q) ∧
    (∀ p q j, (writeErasure env).trace.get? p = some (Event.sidecarWrite j) →
      (writeErasure env).trace.get? q = some (Event.lockNS false) → p < q) ∧
    (∀ p q i, (writeErasure env).trace.get? p = some (Event.lockNS false) →
      ((writeErasure env).trace.get? q = some (Event.closeShard i) ∨
       (writeErasure env).trace.get? q = some (Event.closeSidecar i)) → p < q) ∧
    (∀ p q k, ((writeErasure env).trace.get? p = some (Event.blockRead k) ∨
        (∃ i, (writeErasure env).trace.get? p = some (Event.shardWrite k i))) →
      (writeErasure env).trace.get? q = some (Event.lockNS false) → p < q) := by
  obtain ⟨t3, t4, t5, t6, t7, t8, t9, htr, h3, h4, h5, h6, h7, h8, h9, hlock⟩ :=
    trace_decomposition env
  have s9 : t9.Pairwise (fun a b => eventRank a ≤ eventRank b) ∧
      ∀ ev ∈ t9, 9 ≤ eventRank ev := by
    constructor
    · exact List.pairwise_of_forall_mem_list (fun a ha b hb => by rw [h9 a ha, h9 b hb])
    · intro ev h
      rw [h9 ev h]
  have s8 := pairwise_rank_seg (by omega) h8 s9.1 s9.2
  have s7 := pairwise_rank_seg (by omega) h7 s8.1 s8.2
  have s6 := pairwise_rank_seg (by omega) h6 s7.1 s7.2
  have s5 := pairwise_rank_seg (by omega) h5 s6.1 s6.2
  have s4 := pairwise_rank_seg (by omega) h4 s5.1 s5.2
  have s3 := pairwise_rank_seg (by omega) h3 s4.1 s4.2
  have hpair : (writeErasure env).trace.Pairwise
      (fun a b => eventRank a ≤ eventRank b) := by
    rw [htr]
    refine List.pairwise_append.mpr ⟨?_, s3.1, ?_⟩
    · decide
    · intro a ha b hb
      have hb3 := s3.2 b hb
      have ha2 : eventRank a ≤ 2 := by
        rcases List.mem_cons.mp ha with h2 | h2
        · rw [h2]; decide
        rcases List.mem_cons.mp h2 with h2b | h2b
        · rw [h2b]; decide
        · rw [List.mem_singleton.mp h2b]; decide
      omega
  refine ⟨⟨t3 ++ (t4 ++ (t5 ++ (t6 ++ (t7 ++ (t8 ++ t9))))), htr, s3.2⟩, hpair,
    ?_, ?_, ?_, ?_, ?_⟩
  · -- closes imply the exclusive lock and unlock are in the trace
    intro i hi
    have hmem : ∀ ev : Event, eventRank ev = 7 → ev ∈ (writeErasure env).trace →
        ev ∈ t7 := by
      intro ev hrk hm
      rw [htr] at hm
      rcases List.mem_append.mp hm with h2 | h2
      · exfalso
        rcases List.mem_cons.mp h2 with h3 | h3
        · rw [h3] at hrk; cases hrk
        rcases List.mem_cons.mp h3 with h3b | h3b
        · rw [h3b] at hrk; cases hrk
        · rw [List.mem_singleton.mp h3b] at hrk; cases hrk
      rcases List.mem_append.mp h2 with h2 | h2
      · rw [h3 ev h2] at hrk; cases hrk
      rcases List.mem_append.mp h2 with h2 | h2
      · rw [h4 ev h2] at hrk; cases hrk
      rcases List.mem_append.mp h2 with h2 | h2
      · rw [h5 ev h2] at hrk; cases hrk
      rcases List.mem_append.mp h2 with h2 | h2
      · rw [h6 ev h2] at hrk; cases hrk
      rcases List.mem_append.mp h2 with h2 | h2
      · exact h2
      rcases List.mem_append.mp h2 with h2 | h2
      · rw [h8 ev h2] at hrk; cases hrk
      · rw [h9 ev h2] at hrk; cases hrk
    have ht7ne : t7 ≠ [] := by
      rcases hi with hm | hm
      · intro hemp
        have h2 := hmem (Event.closeShard i) rfl hm
        rw [hemp] at h2
        cases h2
      · intro hemp
        have h2 := hmem (Event.closeSidecar i) rfl hm
        rw [hemp] at h2
        cases h2
    obtain ⟨hl6, hu9⟩ := hlock ht7ne
    constructor
    · rw [htr]
      refine List.mem_append.mpr (Or.inr ?_)
      refine List.mem_append.mpr (Or.inr ?_)
      refine List.mem_append.mpr (Or.inr ?_)
      refine List.mem_append.mpr (Or.inr ?_)
      exact List.mem_append.mpr (Or.inl hl6)
    · rw [htr]
      refine List.mem_append.mpr (Or.inr ?_)
      refine List.mem_append.mpr (Or.inr ?_)
      refine List.mem_append.mpr (Or.inr ?_)
      refine List.mem_append.mpr (Or.inr ?_)
      refine List.mem_append.mpr (Or.inr ?_)
      refine List.mem_append.mpr (Or.inr ?_)
      exact List.mem_append.mpr (Or.inr hu9)
  · intro p q k i j hp hq
    exact rank_lt_of_get hpair hp hq (by simp [eventRank])
  · intro p q j hp hq
    exact rank_lt_of_get hpair hp hq (by simp [eventRank])
  · intro p q i hp hq
    rcases hq with hq | hq
    · exact rank_lt_of_get hpair hp hq (by simp [eventRank])
    · exact rank_lt_of_get hpair hp hq (by simp [eventRank])
  · intro p q k hp hq
    rcases hp with hp | ⟨i, hp⟩
    · exact rank_lt_of_get hpair hp hq (by simp [eventRank])
    · exact rank_lt_of_get hpair hp hq (by simp [eventRank])

/-! ### The leaked part writer of a failed sidecar create (C10) -/

lemma getD_set_ne {α : Type} (l : List (Option α)) (i j : Nat) (x : Option α)
    (h : i ≠ j) : (l.set i x).getD j none = l.getD j none := by
  rcases getD_set_or l i j x with h2 | ⟨h3, _⟩
  · exact h2
  · exact absurd h3 h

lemma stageLoop_frozen_below (outs : List StageOutcome) :
    ∀ index n w c st st1, stageLoop outs index n w c st = StageResult.done st1 →
      ∀ j, j < index →
        st1.writers.getD j none = st.writers.getD j none ∧
        st1.metadataWriters.getD j none = st.metadataWriters.getD j none ∧
        st1.sha512Writers.getD j none = st.sha512Writers.getD j none := by
  induction outs with
  | nil =>
      intro index n w c st st1 h j hj
      cases h
      exact ⟨rfl, rfl, rfl⟩
  | cons o rest ih =>
      intro index n w c st st1 h j hj
      cases o with
      | ok =>
          simp only [stageLoop] at h
          obtain ⟨hw, hm, hs⟩ := ih (index + 1) n w c _ st1 h j (by omega)
          refine ⟨?_, ?_, ?_⟩
          · rw [hw]
            exact getD_set_ne st.writers index j _ (by omega)
          · rw [hm]
            exact getD_set_ne st.metadataWriters index j _ (by omega)
          · rw [hs]
            exact getD_set_ne st.sha512Writers index j _ (by omega)
      | partFail =>
          simp only [stageLoop] at h
          split at h
          · exact ih (index + 1) n w (c + 1) _ st1 h j (by omega)
          · cases h
      | metaFail =>
          simp only [stageLoop] at h
          split at h
          · exact ih (index + 1) n w (c + 1) _ st1 h j (by omega)
          · cases h

lemma stageLoop_leak_mono (outs : List StageOutcome) :
    ∀ index n w c st st1, stageLoop outs index n w c st = StageResult.done st1 →
      ∀ l, l ∈ st.leakedPart → l ∈ st1.leakedPart := by
  induction outs with
  | nil =>
      intro index n w c st st1 h l hl
      cases h
      exact hl
  | cons o rest ih =>
      intro index n w c st st1 h l hl
      cases o with
      | ok =>
          simp only [stageLoop] at h
          exact ih (index + 1) n w c _ st1 h l hl
      | partFail =>
          simp only [stageLoop] at h
          split at h
          · exact ih (index + 1) n w (c + 1) _ st1 h l hl
          · cases h
      | metaFail =>
          simp only [stageLoop] at h
          split at h
          · exact ih (index + 1) n w (c + 1) _ st1 h l
              (List.mem_append.mpr (Or.inl hl))
          · cases h

lemma stageLoop_metaFail_slot (outs : List StageOutcome) :
    ∀ index n w c st st1 i,
      stageLoop outs index n w c st = StageResult.done st1 →
      outs.get? i = some StageOutcome.metaFail →
      (st1.writers.getD (index + i) none = st.writers.getD (index + i) none ∧
       st1.metadataWriters.getD (index + i) none =
         st.metadataWriters.getD (index + i) none ∧
       st1.sha512Writers.getD (index + i) none =
         st.sha512Writers.getD (index + i) none) ∧
      (index + i) ∈ st1.leakedPart := by
  induction outs with
  | nil =>
      intro index n w c st st1 i h houts
      cases houts
  | cons o rest ih =>
      intro index n w c st st1 i h houts
      cases i with
      | zero =>
          have ho : o = StageOutcome.metaFail := by
            simp only [List.get?] at houts
            exact Option.some.inj houts
          subst ho
          simp only [stageLoop] at h
          split at h
          · have hfroz := stageLoop_frozen_below rest (index + 1) n w (c + 1) _ st1 h
              index (by omega)
            have hleak := stageLoop_leak_mono rest (index + 1) n w (c + 1) _ st1 h
              index (List.mem_append.mpr (Or.inr (List.mem_singleton.mpr rfl)))
            simp only [Nat.add_zero]
            exact ⟨hfroz, hleak⟩
          · cases h
      | succ pos =>
          have houts2 : rest.get? pos = some StageOutcome.metaFail := houts
          have hidx : index + (pos + 1) = (index + 1) + pos := by omega
          cases o with
          | ok =>
              simp only [stageLoop] at h
              have hrec := ih (index + 1) n w c _ st1 pos h houts2
              rw [hidx]
              refine ⟨⟨?_, ?_, ?_⟩, hrec.2⟩
              · rw [hrec.1.1]
                exact getD_set_ne st.writers index _ _ (by omega)
              · rw [hrec.1.2.1]
                exact getD_set_ne st.metadataWriters index _ _ (by omega)
              · rw [hrec.1.2.2]
                exact getD_set_ne st.sha512Writers index _ _ (by omega)
          | partFail =>
              simp only [stageLoop] at h
              split at h
              · have hrec := ih (index + 1) n w (c + 1) _ st1 pos h houts2
                rw [hidx]
                exact hrec
              · cases h
          | metaFail =>
              simp only [stageLoop] at h
              split at h
              · have hrec := ih (index + 1) n w (c + 1) _ st1 pos h houts2
                rw [hidx]
                exact hrec
              · cases h

lemma commitLoop_closed_sub (cse cme : Nat → Option Err) (W mws : List (Option Nat)) :
    ∀ (ws : List (Option Nat)) (index : Nat) (st st1 : CommitState),
      ws = W.drop index →
      commitLoop cse cme ws mws index st = Except.ok st1 →
      (∀ j, j ∈ st1.closedShard → j ∈ st.closedShard ∨ W.getD j none ≠ none) ∧
      (∀ j, j ∈ st1.closedMeta → j ∈ st.closedMeta ∨ mws.getD j none ≠ none) := by
  intro ws
  induction ws with
  | nil =>
      intro index st st1 hdrop h
      cases h
      exact ⟨fun j hj => Or.inl hj, fun j hj => Or.inl hj⟩
  | cons w rest ih =>
      intro index st st1 hdrop h
      obtain ⟨hrest, hhead⟩ := drop_cons_rest W index w rest hdrop
      cases w with
      | none =>
          simp only [commitLoop] at h
          exact ih (index + 1) st st1 hrest h
      | some wid =>
          have hgetW : W.getD index none ≠ none := by
            rw [List.getD_eq_getElem?_getD, hhead]
            simp
          simp only [commitLoop] at h
          cases hcse : cse index with
          | some e =>
              rw [hcse] at h
              cases h
          | none =>
              rw [hcse] at h
              cases hmw : mws.getD index none with
              | none =>
                  rw [hmw] at h
                  have hrec := ih (index + 1) _ st1 hrest h
                  refine ⟨?_, hrec.2⟩
                  intro j hj
                  rcases hrec.1 j hj with h2 | h2
                  · simp only at h2
                    rcases List.mem_append.mp h2 with h3 | h3
                    · exact Or.inl h3
                    · right
                      rw [List.mem_singleton.mp h3]
                      exact hgetW
                  · exact Or.inr h2
              | some mwid =>
                  rw [hmw] at h
                  cases hcme : cme index with
                  | some e =>
                      rw [hcme] at h
                      cases h
                  | none =>
                      rw [hcme] at h
                      have hrec := ih (index + 1) _ st1 hrest h
                      constructor
                      · intro j hj
                        rcases hrec.1 j hj with h2 | h2
                        · simp only at h2
                          rcases List.mem_append.mp h2 with h3 | h3
                          · exact Or.inl h3
                          · right
                            rw [List.mem_singleton.mp h3]
                            exact hgetW
                        · exact Or.inr h2
                      · intro j hj
                        rcases hrec.2 j hj with h2 | h2
                        · simp only at h2
                          rcases List.mem_append.mp h2 with h3 | h3
                          · exact Or.inl h3
                          · right
                            rw [List.mem_singleton.mp h3]
                            rw [hmw]
                            simp
                        · exact Or.inr h2

/-- On a committed run the trace contains no cleanup-phase event (rank 8:
`cleanupRun`, `deleteFile`, `closeWithError`). -/
lemma committed_no_rank8 (env : Env) (f : FinalState)
    (h : (writeErasure env).outcome = Outcome.committed f) :
    ∀ ev ∈ (writeErasure env).trace, eventRank ev ≠ 8 := by
  obtain ⟨v, st, bst, mst, cst, hscan, hstage, hblock, hmeta, hcommit, hf⟩ :=
    committed_run env f h
  have hnil : ∀ ev : Event, ev ∈ ([] : List Event) → False := fun ev h2 => by cases h2
  have h3 : ∀ ev ∈ st.events, eventRank ev = 3 := by
    intro ev h2
    rcases stageLoop_events_rank env.stageOuts 0 env.numDisks env.writeQuorum 0
        (initStaged env.numDisks) ev (by rw [hstage]; exact h2) with h4 | h4
    · exact absurd h4 (hnil ev)
    · exact h4
  have h4 : ∀ ev ∈ bst.events, eventRank ev = 4 := by
    intro ev h2
    rcases blockLoop_events_rank env.split env.shardWriteErr st.writers
        st.sha512Writers env.reads 0 (initBlockState env.numDisks) ev
        (by rw [hblock]; exact h2) with h5 | h5
    · exact absurd h5 (hnil ev)
    · exact h5
  have h5 : ∀ ev ∈ mst.events, eventRank ev = 5 := by
    intro ev h2
    rcases metaWriteLoop_events_rank env.hash512 env.hexEnc env.metaWriteErr
        st.metadataWriters st.sha512Writers bst.hashed 0
        (initMetaWrite env.numDisks (buildMetadata env.minioVersion bst.totalSize
          env.numDisks st.writers.length v env.modTimeStr env.dataBlocks
          env.parityBlocks)) ev
        (by rw [hmeta]; simp only [exceptState]; exact h2) with h6 | h6
    · exact absurd h6 (hnil ev)
    · exact h6
  have h7 : ∀ ev ∈ cst.events, eventRank ev = 7 := by
    intro ev h2
    rcases commitLoop_events_rank env.closeShardErr env.closeMetaErr
        st.writers st.metadataWriters 0 initCommit ev
        (by rw [hcommit]; simp only [exceptState]; exact h2) with h6 | h6
    · exact absurd h6 (hnil ev)
    · exact h6
  have htr : (writeErasure env).trace =
      [Event.lockNS true, Event.metaRead, Event.unlockNS true] ++
        (st.events ++ (bst.events ++ (mst.events ++ ([Event.lockNS false] ++
          (cst.events ++ [Event.unlockNS false, Event.closePipe]))))) := by
    simp only [writeErasure, hscan, hstage, hblock, hmeta, hcommit]
    simp [List.append_assoc]
  intro ev hm
  rw [htr] at hm
  rcases List.mem_append.mp hm with h2 | h2
  · rcases List.mem_cons.mp h2 with h0 | h0
    · rw [h0]; decide
    rcases List.mem_cons.mp h0 with h0b | h0b
    · rw [h0b]; decide
    · rw [List.mem_singleton.mp h0b]; decide
  rcases List.mem_append.mp h2 with h2 | h2
  · rw [h3 ev h2]; omega
  rcases List.mem_append.mp h2 with h2 | h2
  · rw [h4 ev h2]; omega
  rcases List.mem_append.mp h2 with h2 | h2
  · rw [h5 ev h2]; omega
  rcases List.mem_append.mp h2 with h2 | h2
  · rw [List.mem_singleton.mp h2]; decide
  rcases List.mem_append.mp h2 with h2 | h2
  · rw [h7 ev h2]; omega
  · rcases List.mem_cons.mp h2 with h0 | h0
    · rw [h0]; decide
    · rw [List.mem_singleton.mp h0]; decide

/-- C10: a disk whose `part.i` create succeeds but whose sidecar create
fails, while the failure counter stays within `N - W`, is left with all
three array slots nil and its opened part writer recorded only as leaked;
on a run that subsequently commits, that disk is never closed by the
commit loop and no cleanup or `DeleteFile` is ever issued. -/
theorem leaked_part_writer_never_cleaned (env : Env) (i : Nat)
    (houts : env.stageOuts.get? i = some StageOutcome.metaFail)
    (hquorum : failCount env.stageOuts ≤ env.numDisks - env.writeQuorum) :
    ∃ st, stageLoop env.stageOuts 0 env.numDisks env.writeQuorum 0
        (initStaged env.numDisks) = StageResult.done st ∧
      st.writers.getD i none = none ∧
      st.metadataWriters.getD i none = none ∧
      st.sha512Writers.getD i none = none ∧
      i ∈ st.leakedPart ∧
      ∀ f, (writeErasure env).outcome = Outcome.committed f →
        i ∉ f.closedShard ∧ i ∉ f.closedMeta ∧ i ∈ f.leakedPart ∧
        (∀ j, Event.deleteFile j ∉ (writeErasure env).trace) ∧
        Event.cleanupRun ∉ (writeErasure env).trace := by
  obtain ⟨st, hstage⟩ := (stageLoop_cases env.stageOuts 0 env.numDisks env.writeQuorum 0
    (initStaged env.numDisks) (Nat.zero_le _)).1 (by omega)
  have hinit : ∀ j, ((initStaged env.numDisks).writers.getD j none = none) ∧
      ((initStaged env.numDisks).metadataWriters.getD j none = none) ∧
      ((initStaged env.numDisks).sha512Writers.getD j none = none) := by
    intro j
    simp only [initStaged]
    rw [List.getD_eq_getElem?_getD, List.getElem?_replicate]
    by_cases hc : j < env.numDisks <;> simp [hc]
  obtain ⟨⟨hw, hm, hs⟩, hleak⟩ := stageLoop_metaFail_slot env.stageOuts 0 env.numDisks
    env.writeQuorum 0 (initStaged env.numDisks) st i hstage houts
  simp only [Nat.zero_add] at hw hm hs hleak
  have hwn : st.writers.getD i none = none := by rw [hw]; exact (hinit i).1
  have hmn : st.metadataWriters.getD i none = none := by rw [hm]; exact (hinit i).2.1
  have hsn : st.sha512Writers.getD i none = none := by rw [hs]; exact (hinit i).2.2
  refine ⟨st, hstage, hwn, hmn, hsn, hleak, ?_⟩
  intro f hf
  obtain ⟨v, st2, bst, mst, cst, hscan, hstage2, hblock, hmeta, hcommit, hfeq⟩ :=
    committed_run env f hf
  have hst : st2 = st := by
    rw [hstage] at hstage2
    injection hstage2 with h2
    exact h2.symm
  rw [hst] at hcommit hfeq
  obtain ⟨hcs, hcm⟩ := commitLoop_closed_sub env.closeShardErr env.closeMetaErr
    st.writers st.metadataWriters st.writers 0 initCommit cst
    (by rw [List.drop_zero]) hcommit
  refine ⟨?_, ?_, ?_, ?_, ?_⟩
  · intro hmem
    rw [hfeq] at hmem
    rcases hcs i hmem with h2 | h2
    · cases h2
    · exact h2 hwn
  · intro hmem
    rw [hfeq] at hmem
    rcases hcm i hmem with h2 | h2
    · cases h2
    · exact h2 hmn
  · rw [hfeq]
    exact hleak
  · intro j hmem
    exact committed_no_rank8 env f hf (Event.deleteFile j) hmem rfl
  · intro hmem
    exact committed_no_rank8 env f hf Event.cleanupRun hmem rfl

theorem producer_phase_ordering_witness :
    ∃ t2, (writeErasure envC9).trace =
        [Event.lockNS true, Event.metaRead, Event.unlockNS true] ++ t2 ∧
      ∀ ev ∈ t2, 3 ≤ eventRank ev :=
  (producer_phase_ordering envC9).1

theorem leaked_part_writer_never_cleaned_witness :
    ∃ st, stageLoop envC10.stageOuts 0 envC10.numDisks envC10.writeQuorum 0
        (initStaged envC10.numDisks) = StageResult.done st ∧
      st.writers.getD 1 none = none ∧
      st.metadataWriters.getD 1 none = none ∧
      st.sha512Writers.getD 1 none = none ∧
      1 ∈ st.leakedPart ∧
      ∀ f, (writeErasure envC10).outcome = Outcome.committed f →
        1 ∉ f.closedShard ∧ 1 ∉ f.closedMeta ∧ 1 ∈ f.leakedPart ∧
        (∀ j, Event.deleteFile j ∉ (writeErasure envC10).trace) ∧
        Event.cleanupRun ∉ (writeErasure envC10).trace :=
  leaked_part_writer_never_cleaned envC10 1 rfl (by decide)

end XLWrite